import Mathlib

/-!
Verification of the tile-map / kinematics core of the mini-2d-engine
repository (TypeScript source under `src/`).

Shallow embedding conventions:
* JavaScript `number` is modelled as `ℝ`; JS `%` (remainder, sign of the
  dividend) is modelled by `jsMod`; `Math.floor` on a real is `Int.floor`.
* Mutating methods become functions returning the updated state.
* Render-only data (tile colors, particle effects, sprites) is omitted:
  no specified behaviour reads it.
* `Math.random()` is modelled by an explicit oracle (a stream of samples)
  passed to the functions that draw random numbers.
-/

open scoped Real

namespace Engine

/-- Tile-type identifiers, from `TileType.ts` (`enum TileTypeId`). -/
inductive TileTypeId where
  | default
  | water
  | wall
  | mineral
deriving DecidableEq

/-- Physical properties of a tile type, from `TileType.ts` (`interface TileType`).
The render-only `color` field is omitted. -/
structure TileType where
  speedFactor : ℝ
  isDestructible : Bool
  durability : Option ℝ

/-- The `TILE_TYPES` table of `TileType.ts`.  The record is total over the
four identifiers, so `getTileType`'s fallback branch is never taken. -/
noncomputable def TILE_TYPES : TileTypeId → TileType
  | .default => ⟨1, false, none⟩
  | .water => ⟨1 / 2, false, none⟩
  | .wall => ⟨0, false, none⟩
  | .mineral => ⟨0, true, some 100⟩

/-- `getTileType` of `TileType.ts`; the lookup is total here. -/
noncomputable def getTileType (t : TileTypeId) : TileType := TILE_TYPES t

/-- `getTileSpeedFactor` of `TileType.ts` (identifier argument case). -/
noncomputable def getTileSpeedFactor (t : TileTypeId) : ℝ := (getTileType t).speedFactor

/-- Per-terrain generation entry, from `TileMap.ts` (`interface TerrainConfig`). -/
structure TerrainConfig where
  type : TileTypeId
  walkable : Bool
  baseProbability : ℝ
  inheritProbability : ℝ
  maxHp : Option ℝ

/-- The `terrainConfigs` array of `TileMap.ts`.  Note `water` has no entry. -/
def terrainConfigs : List TerrainConfig :=
  [⟨.default, true, 0.90, 0.8, none⟩,
   ⟨.wall, false, 0.05, 0.8, none⟩,
   ⟨.mineral, false, 0.05, 0.8, some 100⟩]

/-- The `terrainMap` lookup of `TileMap.ts` (`Map` built from `terrainConfigs`);
`water` maps to `none` (JS `undefined`). -/
def terrainMap (t : TileTypeId) : Option TerrainConfig :=
  terrainConfigs.find? fun c => decide (c.type = t)

/-- JS `!terrain?.walkable` negated: a cell's terrain counts as walkable iff
its config exists and has `walkable: true`. -/
def terrainWalkable (t : TileTypeId) : Bool :=
  match terrainMap t with
  | some cfg => cfg.walkable
  | none => false

/-- State of a `TileMap` (`TileMap.ts`).  The three parallel 2-D arrays are
modelled as total functions on `(row, col)`; every method of the source
guards its indices (or, in `isCollidingRect`, only reaches in-range indices
under its boundary pre-check), so out-of-range values are never consulted.
The source fixes `tileSize = 50` and `highlightDuration = 0.1`; they are kept
as fields initialised by `new TileMap(...)`. -/
structure TileMap where
  width : ℤ
  height : ℤ
  tileSize : ℝ
  tiles : ℤ → ℤ → TileTypeId
  tileHp : ℤ → ℤ → ℝ
  tileHighlight : ℤ → ℤ → ℝ
  highlightDuration : ℝ

/-- Point update of a two-argument function (one cell of a 2-D array). -/
def upd2 {α : Type} (f : ℤ → ℤ → α) (r c : ℤ) (v : α) : ℤ → ℤ → α :=
  fun r' c' => if r' = r ∧ c' = c then v else f r' c'

/-- The inclusive integer range `[a, b]` as a list (the index sets of the
source's `for (let i = a; i <= b; i++)` loops). -/
def intRange (a b : ℤ) : List ℤ :=
  (List.range (b + 1 - a).toNat).map fun i : ℕ => a + (i : ℤ)

/-- Bounds check `0 ≤ row < height ∧ 0 ≤ col < width` shared by the
source's queries (written there as `row < 0 || col < 0 || row >= this.height
|| col >= this.width`, negated). -/
def cellInRange (m : TileMap) (row col : ℤ) : Bool :=
  decide (0 ≤ row ∧ 0 ≤ col ∧ row < m.height ∧ col < m.width)

/-- The row-major list of cells `(row, col)` overlapped by the rectangle
`[x, x+w) × [y, y+h)`, exactly as every query of `TileMap.ts` enumerates
them: columns `⌊x/tileSize⌋ .. ⌊(x+w-1)/tileSize⌋`, rows analogously. -/
noncomputable def overlappedCells (m : TileMap) (x y w h : ℝ) : List (ℤ × ℤ) :=
  let startCol := ⌊x / m.tileSize⌋
  let endCol := ⌊(x + w - 1) / m.tileSize⌋
  let startRow := ⌊y / m.tileSize⌋
  let endRow := ⌊(y + h - 1) / m.tileSize⌋
  (intRange startRow endRow).flatMap fun row =>
    (intRange startCol endCol).map fun col => (row, col)

/-- `TileMap.isWalkableArea(x, y, size)`: true iff every overlapped cell is
in range and walkable (the source returns `false` at the first cell that is
out of range or not walkable). -/
noncomputable def isWalkableArea (m : TileMap) (x y size : ℝ) : Bool :=
  (overlappedCells m x y size size).all fun rc =>
    cellInRange m rc.1 rc.2 && terrainWalkable (m.tiles rc.1 rc.2)

/-- `TileMap.isCollidingRect(x, y, width, height)`: true if the rectangle
leaves the map's pixel bounds, else true iff some overlapped tile is not
walkable.  (Under the boundary pre-check and `tileSize = 50 ≥ 1` every index
reached by the source's unguarded `this.tiles[row][col]` access is in
range.) -/
noncomputable def isCollidingRect (m : TileMap) (x y w h : ℝ) : Bool :=
  if x < 0 ∨ y < 0 ∨ x + w > m.width * m.tileSize ∨ y + h > m.height * m.tileSize then
    true
  else
    (overlappedCells m x y w h).any fun rc => !terrainWalkable (m.tiles rc.1 rc.2)

/-- `TileMap.damageTile(col, row, amount)`.  No-op when the indices are out
of range, the tile's type is not destructible, or its config has no (or a
zero, by JS truthiness) `maxHp`.  Otherwise subtract `amount` from the
cell's hp, reset its highlight timer, and on hp ≤ 0 clamp the hp to 0 and
turn the tile into the default type. -/
noncomputable def damageTile (m : TileMap) (col row : ℤ) (amount : ℝ) : TileMap :=
  if row < 0 ∨ col < 0 ∨ row ≥ m.height ∨ col ≥ m.width then m
  else
    let tileTypeId := m.tiles row col
    let tileType := getTileType tileTypeId
    match terrainMap tileTypeId with
    | none => m
    | some terrain =>
      if !tileType.isDestructible then m
      else
        match terrain.maxHp with
        | none => m
        | some maxHp =>
          if maxHp = 0 then m
          else
            let hp' := m.tileHp row col - amount
            if hp' ≤ 0 then
              { m with
                tileHp := upd2 m.tileHp row col 0
                tileHighlight := upd2 m.tileHighlight row col m.highlightDuration
                tiles := upd2 m.tiles row col .default }
            else
              { m with
                tileHp := upd2 m.tileHp row col hp'
                tileHighlight := upd2 m.tileHighlight row col m.highlightDuration }

/-- `TileMap.breakTile(col, row)`: for in-range indices, unconditionally set
the cell's type to the default type and its hp to 0. -/
def breakTile (m : TileMap) (col row : ℤ) : TileMap :=
  if 0 ≤ row ∧ 0 ≤ col ∧ row < m.height ∧ col < m.width then
    { m with
      tiles := upd2 m.tiles row col .default
      tileHp := upd2 m.tileHp row col 0 }
  else m

/-- `TileMap.getSpeedFactor(x, y)`: the speed factor of the tile containing
the point, or `1.0` outside the grid. -/
noncomputable def getSpeedFactor (m : TileMap) (x y : ℝ) : ℝ :=
  let col := ⌊x / m.tileSize⌋
  let row := ⌊y / m.tileSize⌋
  if row < 0 ∨ col < 0 ∨ row ≥ m.height ∨ col ≥ m.width then 1
  else getTileSpeedFactor (m.tiles row col)

/-- Result record of `TileMap.getTileAtRect` (`{terrain, row, col, health}`;
`terrain` is `undefined` when the hit tile has no config, e.g. `water`). -/
structure TileHit where
  terrain : Option TerrainConfig
  row : ℤ
  col : ℤ
  health : ℝ

/-- `TileMap.getTileAtRect(x, y, size)`: scan the overlapped cells in
row-major order, skip out-of-range cells, and return the first in-range
non-walkable cell. -/
noncomputable def getTileAtRect (m : TileMap) (x y size : ℝ) : Option TileHit :=
  ((overlappedCells m x y size size).find? fun rc =>
      cellInRange m rc.1 rc.2 && !terrainWalkable (m.tiles rc.1 rc.2)).map
    fun rc => ⟨terrainMap (m.tiles rc.1 rc.2), rc.1, rc.2, m.tileHp rc.1 rc.2⟩

/-- One sampling attempt of `TileMap.getRandomWalkablePosition`: the
candidate position derived from one pair of `Math.random()` samples. -/
noncomputable def samplePosition (m : TileMap) (size : ℝ) (s : ℝ × ℝ) : ℝ × ℝ :=
  let col := ⌊s.1 * m.width⌋
  let row := ⌊s.2 * m.height⌋
  (col * m.tileSize + (m.tileSize - size) / 2,
   row * m.tileSize + (m.tileSize - size) / 2)

/-- The attempt loop of `TileMap.getRandomWalkablePosition`; `fuel` counts
the remaining attempts, `i` indexes the random oracle. -/
noncomputable def randomWalkableGo (m : TileMap) (size : ℝ) (rand : ℕ → ℝ × ℝ) :
    ℕ → ℕ → Option (ℝ × ℝ)
  | _, 0 => none
  | i, fuel + 1 =>
    let p := samplePosition m size (rand i)
    if isWalkableArea m p.1 p.2 size then some p else randomWalkableGo m size rand (i + 1) fuel

/-- `TileMap.getRandomWalkablePosition(size)`: up to 1000 attempts; `none`
models the thrown error after exhausting them. -/
noncomputable def getRandomWalkablePosition (m : TileMap) (size : ℝ)
    (rand : ℕ → ℝ × ℝ) : Option (ℝ × ℝ) :=
  randomWalkableGo m size rand 0 1000

end Engine

namespace Engine

/-- JS truncation toward zero (`Math.trunc`, and the quotient underlying
the `%` operator). -/
noncomputable def jsTrunc (x : ℝ) : ℝ :=
  if 0 ≤ x then (⌊x⌋ : ℝ) else (⌈x⌉ : ℝ)

/-- The JS remainder operator `a % b` (result has the sign of `a`). -/
noncomputable def jsMod (a b : ℝ) : ℝ :=
  a - b * jsTrunc (a / b)

/-- `Math.atan2(y, x)` on a nonzero vector, with range `(-π, π]` (modelled by
the complex argument; real arithmetic has no signed zero). -/
noncomputable def atan2 (y x : ℝ) : ℝ :=
  Complex.arg ⟨x, y⟩

/-- A `Vector2` value (`Vector2.ts`): a pair of reals. -/
abbrev Vec := ℝ × ℝ

/-- `Vector2.add`. -/
def vadd (a b : Vec) : Vec := (a.1 + b.1, a.2 + b.2)

/-- `Vector2.sub`. -/
def vsub (a b : Vec) : Vec := (a.1 - b.1, a.2 - b.2)

/-- `Vector2.scale`. -/
def vscale (s : ℝ) (a : Vec) : Vec := (s * a.1, s * a.2)

/-- `Vector2.length`. -/
noncomputable def vlen (a : Vec) : ℝ := Real.sqrt (a.1 * a.1 + a.2 * a.2)

/-- The rotation strategy of `Entities` (`"cw" | "ccw" | "auto"`). -/
inductive RotationStrategy where
  | cw
  | ccw
  | auto
deriving DecidableEq

/-- State and kinematic constants of an `Entities` actor (`Entities.ts`).
The source initialises `size = 49`, `maxSpeed = 400`, `accel = 4000`,
`decel = 1200`, `nonlinearFactor = 0.5`, `rotationSpeed = 4π`; they are kept
as fields.  The input buffer and sprite are render/input-side and not read
by any claim. -/
structure EntityState where
  x : ℝ
  y : ℝ
  size : ℝ
  maxSpeed : ℝ
  accel : ℝ
  decel : ℝ
  velocity : Vec
  nonlinearFactor : ℝ
  currentRotation : ℝ
  rotationSpeed : ℝ
  rotationStrategy : RotationStrategy

/-- `Entities.limitPosition(map)`.  Note the source computes `mapWidth` as
`map.width * map.width` (the adjacent `mapHeight` line uses
`map.height * map.tileSize`); the embedding reproduces this faithfully. -/
def limitPosition (m : TileMap) (s : EntityState) : EntityState :=
  let mapWidth := (m.width : ℝ) * (m.width : ℝ)
  let mapHeight := (m.height : ℝ) * m.tileSize
  { s with
    x := max 0 (min (mapWidth - s.size) s.x)
    y := max 0 (min (mapHeight - s.size) s.y) }

/-- `Entities.updateVelocityNonlinear(targetVel, dir, delta)`: returns the
new velocity.  `speedFrac` is the source's `speedRatio`.  (`Math.sqrt` of a
negative argument is modelled as 0; inside `Entities.update` the
deceleration branch always has `targetVel = 0`, hence `speedFrac = 0`, so
that regime is never reached there.) -/
noncomputable def updateVelocityNonlinear (s : EntityState) (targetVel dir : Vec)
    (delta : ℝ) : Vec :=
  let diff := vsub targetVel s.velocity
  let diffLen := vlen diff
  let v1 :=
    if diffLen > 0 then
      let acceleration := if vlen dir > 0 then s.accel else s.decel
      let targetSpeed := vlen targetVel
      let currentSpeed := vlen s.velocity
      let speedFrac := if targetSpeed > 0 then currentSpeed / targetSpeed else 0
      let maxDelta := acceleration * delta *
        (if vlen dir > 0 then Real.sqrt (speedFrac + s.nonlinearFactor)
         else Real.sqrt (1 - speedFrac + s.nonlinearFactor))
      let diffClamped := if diffLen > maxDelta then vscale (maxDelta / diffLen) diff else diff
      vadd s.velocity diffClamped
    else s.velocity
  if vlen v1 < 1 then (0, 0) else v1

/-- The target angle of `Entities.updateRotation`: the input direction when
its length exceeds 0.01, else the velocity direction when its length
exceeds 1e-3, else none (Math.atan2 plus π in both cases). -/
noncomputable def rotationTarget (s : EntityState) (inputDir : Option Vec) : Option ℝ :=
  match inputDir with
  | some d =>
    if vlen d > 0.01 then some (atan2 d.2 d.1 + π)
    else if vlen s.velocity > 1e-3 then some (atan2 s.velocity.2 s.velocity.1 + π)
    else none
  | none =>
    if vlen s.velocity > 1e-3 then some (atan2 s.velocity.2 s.velocity.1 + π)
    else none

/-- The angle normalization of `Entities.updateRotation`, line
`angleDiff = ((angleDiff + Math.PI) % (2 * Math.PI)) - Math.PI`. -/
noncomputable def normDiff (targetAngle current : ℝ) : ℝ :=
  jsMod (targetAngle - current + π) (2 * π) - π

/-- The near-180° tie-break of `Entities.updateRotation`; `coin` models the
`Math.random() > 0.5` draw of the `auto` strategy. -/
noncomputable def tieBreak (strategy : RotationStrategy) (coin : Bool) (d : ℝ) : ℝ :=
  if |d| > π - 0.01 ∧ |d| < π + 0.01 then
    match strategy with
    | .cw => π
    | .ccw => -π
    | .auto => if coin then π else -π
  else d

/-- `Entities.updateRotation(delta, inputDir)`. -/
noncomputable def updateRotation (s : EntityState) (delta : ℝ) (inputDir : Option Vec)
    (coin : Bool) : EntityState :=
  match rotationTarget s inputDir with
  | none => s
  | some targetAngle =>
    let angleDiff := tieBreak s.rotationStrategy coin (normDiff targetAngle s.currentRotation)
    let maxRotation := s.rotationSpeed * delta
    let r1 :=
      if |angleDiff| > maxRotation then s.currentRotation + Real.sign angleDiff * maxRotation
      else targetAngle
    { s with currentRotation := jsMod (r1 + π) (2 * π) - π }

/-- `Entities.updatePosition(delta, map)`: axis-independent motion with
sliding.  Without a map the position advances unconditionally; with a map,
each axis with speed above the 0.1 threshold either commits its new
coordinate (when `isCollidingRect` is clear) or zeroes that velocity
component.  `newY` is computed from the pre-update `y`; the y test uses the
possibly updated `x`. -/
noncomputable def updatePosition (s : EntityState) (delta : ℝ) (map? : Option TileMap) :
    EntityState :=
  match map? with
  | none => { s with x := s.x + s.velocity.1 * delta, y := s.y + s.velocity.2 * delta }
  | some m =>
    let newX := s.x + s.velocity.1 * delta
    let newY := s.y + s.velocity.2 * delta
    let s1 :=
      if |s.velocity.1| > 0.1 then
        if !isCollidingRect m newX s.y s.size s.size then { s with x := newX }
        else { s with velocity := (0, s.velocity.2) }
      else s
    if |s1.velocity.2| > 0.1 then
      if !isCollidingRect m s1.x newY s1.size s1.size then { s1 with y := newY }
      else { s1 with velocity := (s1.velocity.1, 0) }
    else s1

/-- The speed factor used by `Entities.update`:
`map?.getSpeedFactor(this.x, this.y) || 1`.  JS `||` also replaces the
number 0 by 1, so a zero terrain factor is coerced to 1. -/
noncomputable def effSpeedFactor (map? : Option TileMap) (x y : ℝ) : ℝ :=
  match map? with
  | none => 1
  | some m => let f := getSpeedFactor m x y; if f = 0 then 1 else f

/-- `Entities.update(delta, input, map)`, with the two abstract direction
getters (`getMoveDirection` / `getLookDirection`) supplied as arguments.
The `getMaxSpeed` dynamic lookup resolves to the `maxSpeed` field for the
base class modelled here. -/
noncomputable def update (s : EntityState) (delta : ℝ) (moveDir lookDir : Vec)
    (map? : Option TileMap) (coin : Bool) : EntityState :=
  let s0 := match map? with
    | some m => limitPosition m s
    | none => s
  let baseVel := vscale s0.maxSpeed moveDir
  let speedFactor := effSpeedFactor map? s0.x s0.y
  let targetVel := vscale speedFactor baseVel
  let s1 := { s0 with velocity := updateVelocityNonlinear s0 targetVel moveDir delta }
  let s2 := updateRotation s1 delta (some lookDir) coin
  updatePosition s2 delta map?

/-- State of a `Bullet` (`ParticleSystem.ts`).  The source fixes
`size = 10`; the particle-system reference (render-only explosion effects)
is omitted. -/
structure Bullet where
  pos : Vec
  velocity : Vec
  size : ℝ
  isDestroyed : Bool
  damage : ℝ

/-- `Bullet.update(delta, map)`: returns the updated bullet and map.  While
not destroyed: compute the candidate position; on a `getTileAtRect` hit,
damage that tile, mark the bullet destroyed and do not commit the position;
else destroy the bullet when the candidate box lies fully outside the map's
pixel bounds; else commit the candidate position. -/
noncomputable def Bullet.update (b : Bullet) (delta : ℝ) (map? : Option TileMap) :
    Bullet × Option TileMap :=
  if b.isDestroyed then (b, map?)
  else
    let newX := b.pos.1 + b.velocity.1 * delta
    let newY := b.pos.2 + b.velocity.2 * delta
    match map? with
    | some m =>
      match getTileAtRect m newX newY b.size with
      | some hit => ({ b with isDestroyed := true }, some (damageTile m hit.col hit.row b.damage))
      | none =>
        if newX + b.size < 0 ∨ newX > m.width * m.tileSize ∨
            newY + b.size < 0 ∨ newY > m.height * m.tileSize then
          ({ b with isDestroyed := true }, some m)
        else ({ b with pos := (newX, newY) }, some m)
    | none => ({ b with pos := (newX, newY) }, none)

end Engine

namespace Engine

/-- The complex number with the components of a `Vec` (used to reason about
`Vector2.length` through `Complex.abs`). -/
def toC (v : Vec) : ℂ := ⟨v.1, v.2⟩

/-- Strict row-major order on cells: earlier row, or same row and earlier
column. -/
def rowMajorLT (a b : ℤ × ℤ) : Prop := a.1 < b.1 ∨ (a.1 = b.1 ∧ a.2 < b.2)

/-- Reflexive row-major order on cells. -/
def rowMajorLE (a b : ℤ × ℤ) : Prop := a.1 < b.1 ∨ (a.1 = b.1 ∧ a.2 ≤ b.2)

/-- A freshly constructed `TileMap` with the given tile field: `tileSize`
50, per-cell hp `terrain?.maxHp ?? 0`, highlight timers 0, flash duration
0.1, exactly as the constructor initialises them (the random generation of
the tile field itself is abstracted to the supplied function). -/
noncomputable def mkMap (w h : ℤ) (tiles : ℤ → ℤ → TileTypeId) : TileMap :=
  ⟨w, h, 50, tiles,
   fun r c => ((terrainMap (tiles r c)).bind TerrainConfig.maxHp).getD 0,
   fun _ _ => 0, 0.1⟩

/-- An actor with the source's initial constants (`size 49`, `maxSpeed
400`, `accel 4000`, `decel 1200`, `nonlinearFactor 0.5`, `rotationSpeed
4π`) at the origin, at rest. -/
noncomputable def baseEntity : EntityState :=
  ⟨0, 0, 49, 400, 4000, 1200, (0, 0), 0.5, 0, 4 * π, .auto⟩

/-- 60×10 map of default tiles (width exceeds `tileSize`, exposing the
`limitPosition` width bug). -/
noncomputable def mapDefault60 : TileMap := mkMap 60 10 fun _ _ => .default

/-- 3×3 map of default tiles. -/
noncomputable def map3 : TileMap := mkMap 3 3 fun _ _ => .default

/-- 3×3 map with a wall at row 1, col 2. -/
noncomputable def mapWall12 : TileMap :=
  mkMap 3 3 fun r c => if r = 1 ∧ c = 2 then .wall else .default

/-- 3×3 map with a wall at row 1, col 1. -/
noncomputable def mapWall11 : TileMap :=
  mkMap 3 3 fun r c => if r = 1 ∧ c = 1 then .wall else .default

/-- 1×1 map holding a single mineral tile. -/
noncomputable def mapMineral00 : TileMap := mkMap 1 1 fun _ _ => .mineral

/-- 60×10 map with a mineral tile at row 1, col 1 (width beyond `tileSize`
so that the `limitPosition` width slip does not interfere). -/
noncomputable def mapMineral11 : TileMap :=
  mkMap 60 10 fun r c => if r = 1 ∧ c = 1 then .mineral else .default

/-- The state of a map after a sequence of `damageTile` calls on one cell. -/
noncomputable def damageSeq (m : TileMap) (col row : ℤ) (as : List ℝ) : TileMap :=
  as.foldl (fun acc a => damageTile acc col row a) m

end Engine

namespace Engine

/-! ## Shared lemmas -/

theorem mem_intRange {a b x : ℤ} : x ∈ intRange a b ↔ a ≤ x ∧ x ≤ b := by
  simp only [intRange, List.mem_map, List.mem_range]
  constructor
  · rintro ⟨i, hi, rfl⟩
    omega
  · rintro ⟨h1, h2⟩
    exact ⟨(x - a).toNat, by omega, by omega⟩

theorem mem_overlappedCells {m : TileMap} {x y w h : ℝ} {rc : ℤ × ℤ} :
    rc ∈ overlappedCells m x y w h ↔
      ⌊y / m.tileSize⌋ ≤ rc.1 ∧ rc.1 ≤ ⌊(y + h - 1) / m.tileSize⌋ ∧
      ⌊x / m.tileSize⌋ ≤ rc.2 ∧ rc.2 ≤ ⌊(x + w - 1) / m.tileSize⌋ := by
  obtain ⟨r, c⟩ := rc
  simp only [overlappedCells, List.mem_flatMap, List.mem_map, mem_intRange]
  constructor
  · rintro ⟨row, ⟨h1, h2⟩, col, ⟨h3, h4⟩, heq⟩
    obtain ⟨rfl, rfl⟩ := Prod.mk.injEq .. ▸ heq
    exact ⟨h1, h2, h3, h4⟩
  · rintro ⟨h1, h2, h3, h4⟩
    exact ⟨r, ⟨h1, h2⟩, c, ⟨h3, h4⟩, rfl⟩

theorem upd2_same {α : Type} (f : ℤ → ℤ → α) (r c : ℤ) (v : α) :
    upd2 f r c v r c = v := by
  simp [upd2]

theorem upd2_other {α : Type} (f : ℤ → ℤ → α) (r c : ℤ) (v : α) {r' c' : ℤ}
    (h : ¬(r' = r ∧ c' = c)) : upd2 f r c v r' c' = f r' c' := by
  simp [upd2, h]

/-! ## C9: out-of-range damageTile / breakTile are no-ops -/

/-- C9.  For out-of-range indices (and any amount), `damageTile` and
`breakTile` return the map unchanged — every cell's type, hp and highlight
timer are untouched.  (Both are total functions: no error is raised.) -/
theorem c9_out_of_range_noop (m : TileMap) (col row : ℤ) (amount : ℝ)
    (h : col < 0 ∨ row < 0 ∨ col ≥ m.width ∨ row ≥ m.height) :
    damageTile m col row amount = m ∧ breakTile m col row = m := by
  constructor
  · rw [damageTile, if_pos]
    tauto
  · rw [breakTile, if_neg]
    rintro ⟨h1, h2, h3, h4⟩
    omega

theorem c9_out_of_range_noop_witness :
    ((-1 : ℤ) < 0 ∨ (5 : ℤ) < 0 ∨ (-1 : ℤ) ≥ map3.width ∨ (5 : ℤ) ≥ map3.height) ∧
    damageTile map3 (-1) 5 40 = map3 ∧ breakTile map3 (-1) 5 = map3 := by
  have h : (-1 : ℤ) < 0 ∨ (5 : ℤ) < 0 ∨ (-1 : ℤ) ≥ map3.width ∨ (5 : ℤ) ≥ map3.height :=
    Or.inl (by norm_num)
  exact ⟨h, (c9_out_of_range_noop map3 (-1) 5 40 h).1, (c9_out_of_range_noop map3 (-1) 5 40 h).2⟩

/-! ## C10: breakTile is unconditional for in-range cells -/

/-- C10.  For any in-range cell — with no destructibility or max-durability
guard, unlike `damageTile` — `breakTile` sets that cell's type to the
default type and its hp to 0, and leaves the highlight timers and all other
cells unchanged. -/
theorem c10_break_tile (m : TileMap) (col row : ℤ)
    (h : 0 ≤ row ∧ 0 ≤ col ∧ row < m.height ∧ col < m.width) :
    (breakTile m col row).tiles row col = .default ∧
    (breakTile m col row).tileHp row col = 0 ∧
    (breakTile m col row).tileHighlight = m.tileHighlight ∧
    (∀ r c : ℤ, ¬(r = row ∧ c = col) →
      (breakTile m col row).tiles r c = m.tiles r c ∧
      (breakTile m col row).tileHp r c = m.tileHp r c) := by
  rw [breakTile, if_pos h]
  refine ⟨upd2_same .., upd2_same .., rfl, fun r c hrc => ⟨upd2_other _ _ _ _ hrc, upd2_other _ _ _ _ hrc⟩⟩

theorem c10_break_tile_witness :
    ((0 : ℤ) ≤ 1 ∧ (0 : ℤ) ≤ 1 ∧ (1 : ℤ) < mapWall11.height ∧ (1 : ℤ) < mapWall11.width) ∧
    mapWall11.tiles 1 1 = .wall ∧
    (getTileType (mapWall11.tiles 1 1)).isDestructible = false ∧
    (breakTile mapWall11 1 1).tiles 1 1 = .default ∧
    (breakTile mapWall11 1 1).tileHp 1 1 = 0 := by
  have h : (0 : ℤ) ≤ 1 ∧ (0 : ℤ) ≤ 1 ∧ (1 : ℤ) < mapWall11.height ∧ (1 : ℤ) < mapWall11.width := by
    refine ⟨by norm_num, by norm_num, ?_, ?_⟩ <;> simp [mapWall11, mkMap]
  have hw : mapWall11.tiles 1 1 = .wall := by simp [mapWall11, mkMap]
  exact ⟨h, hw, by rw [hw]; rfl, (c10_break_tile mapWall11 1 1 h).1, (c10_break_tile mapWall11 1 1 h).2.1⟩

end Engine

namespace Engine

/-! ## C3: damageTile sequences -/

theorem terrainMap_default :
    terrainMap .default = some ⟨.default, true, 0.90, 0.8, none⟩ := by
  simp [terrainMap, terrainConfigs, List.find?]

theorem terrainMap_wall :
    terrainMap .wall = some ⟨.wall, false, 0.05, 0.8, none⟩ := by
  simp [terrainMap, terrainConfigs, List.find?]

theorem terrainMap_mineral :
    terrainMap .mineral = some ⟨.mineral, false, 0.05, 0.8, some 100⟩ := by
  simp [terrainMap, terrainConfigs, List.find?]

theorem terrainMap_water : terrainMap .water = none := by
  simp [terrainMap, terrainConfigs, List.find?]

/-- Only the mineral type is destructible (`TILE_TYPES`). -/
theorem isDestructible_iff (t : TileTypeId) :
    (getTileType t).isDestructible = true ↔ t = .mineral := by
  cases t <;> simp [getTileType, TILE_TYPES]

/-- Case analysis of one `damageTile` call: either a no-op, or (on an
in-range mineral cell) the destroy transition, or the hp-decrement
transition. -/
theorem damageTile_cases (m : TileMap) (col row : ℤ) (a : ℝ) :
    damageTile m col row a = m ∨
    (m.tiles row col = .mineral ∧
      ((m.tileHp row col - a ≤ 0 ∧
        damageTile m col row a =
          { m with
            tileHp := upd2 m.tileHp row col 0
            tileHighlight := upd2 m.tileHighlight row col m.highlightDuration
            tiles := upd2 m.tiles row col .default }) ∨
       (0 < m.tileHp row col - a ∧
        damageTile m col row a =
          { m with
            tileHp := upd2 m.tileHp row col (m.tileHp row col - a)
            tileHighlight := upd2 m.tileHighlight row col m.highlightDuration }))) := by
  by_cases hrange : row < 0 ∨ col < 0 ∨ row ≥ m.height ∨ col ≥ m.width
  · left
    rw [damageTile, if_pos hrange]
  · cases htile : m.tiles row col with
    | mineral =>
      right
      refine ⟨rfl, ?_⟩
      by_cases hhp : m.tileHp row col - a ≤ 0
      · left
        refine ⟨hhp, ?_⟩
        rw [damageTile, if_neg hrange]
        simp only [htile, terrainMap_mineral, getTileType, TILE_TYPES]
        norm_num [hhp]
      · right
        refine ⟨by linarith [not_le.mp hhp], ?_⟩
        rw [damageTile, if_neg hrange]
        simp only [htile, terrainMap_mineral, getTileType, TILE_TYPES]
        norm_num [hhp]
    | default =>
      left
      rw [damageTile, if_neg hrange]
      simp only [htile, terrainMap_default, getTileType, TILE_TYPES]
      norm_num
    | water =>
      left
      rw [damageTile, if_neg hrange]
      simp only [htile, terrainMap_water]
    | wall =>
      left
      rw [damageTile, if_neg hrange]
      simp only [htile, terrainMap_wall, getTileType, TILE_TYPES]
      norm_num

end Engine

namespace Engine

/-- One `damageTile` call with a nonnegative amount never increases the
cell's hp (given the hp was nonnegative). -/
theorem damageTile_hp_le (m : TileMap) (col row : ℤ) {a : ℝ} (ha : 0 ≤ a)
    (h0 : 0 ≤ m.tileHp row col) :
    (damageTile m col row a).tileHp row col ≤ m.tileHp row col := by
  rcases damageTile_cases m col row a with h | ⟨-, ⟨-, h⟩ | ⟨-, h⟩⟩ <;>
    simp [h, upd2_same] <;> linarith

/-- One `damageTile` call keeps the cell's hp nonnegative. -/
theorem damageTile_hp_nonneg (m : TileMap) (col row : ℤ) (a : ℝ)
    (h0 : 0 ≤ m.tileHp row col) :
    0 ≤ (damageTile m col row a).tileHp row col := by
  rcases damageTile_cases m col row a with h | ⟨-, ⟨-, h⟩ | ⟨hpos, h⟩⟩ <;>
    simp [h, upd2_same] <;> linarith

/-- When a `damageTile` call takes the cell's hp from positive to zero, it
also turns the cell into the default type. -/
theorem damageTile_destroy (m : TileMap) (col row : ℤ) (a : ℝ)
    (h1 : 0 < m.tileHp row col)
    (h2 : (damageTile m col row a).tileHp row col = 0) :
    (damageTile m col row a).tiles row col = .default := by
  rcases damageTile_cases m col row a with h | ⟨-, ⟨-, h⟩ | ⟨hpos, h⟩⟩
  · rw [h] at h2
    linarith
  · simp [h, upd2_same]
  · rw [h] at h2
    simp [upd2_same] at h2
    linarith

/-- `damageTile` on a default-type cell is a no-op (the default type is not
destructible): the destroyed state is absorbing. -/
theorem damageTile_default_noop (m : TileMap) (col row : ℤ) (a : ℝ)
    (h : m.tiles row col = .default) : damageTile m col row a = m := by
  rcases damageTile_cases m col row a with h' | ⟨hm, -⟩
  · exact h'
  · rw [h] at hm
    cases hm

/-- C3.  Along any sequence of `damageTile` calls with nonnegative amounts
on an in-range cell (with nonnegative initial hp, as the constructor
guarantees): the cell's hp never increases and never becomes negative; the
call that takes hp from positive to zero turns the cell into the default
type; and once the cell has the default type every further call leaves the
whole map — type, hp, highlight — unchanged. -/
theorem c3_damage_monotone (m : TileMap) (col row : ℤ) (as : List ℝ)
    (hin : 0 ≤ row ∧ 0 ≤ col ∧ row < m.height ∧ col < m.width)
    (ha : ∀ a ∈ as, 0 ≤ a) (h0 : 0 ≤ m.tileHp row col) :
    (∀ n, (damageSeq m col row (as.take (n + 1))).tileHp row col ≤
      (damageSeq m col row (as.take n)).tileHp row col) ∧
    (∀ n, 0 ≤ (damageSeq m col row (as.take n)).tileHp row col) ∧
    (∀ n, 0 < (damageSeq m col row (as.take n)).tileHp row col →
      (damageSeq m col row (as.take (n + 1))).tileHp row col = 0 →
      (damageSeq m col row (as.take (n + 1))).tiles row col = .default) ∧
    (∀ n, (damageSeq m col row (as.take n)).tiles row col = .default →
      damageSeq m col row (as.take (n + 1)) = damageSeq m col row (as.take n)) := by
  have hstep : ∀ n, damageSeq m col row (as.take (n + 1)) =
      match as[n]? with
      | some a => damageTile (damageSeq m col row (as.take n)) col row a
      | none => damageSeq m col row (as.take n) := by
    intro n
    rw [damageSeq, List.take_succ, List.foldl_append]
    cases as[n]? <;> rfl
  have hinv : ∀ n, 0 ≤ (damageSeq m col row (as.take n)).tileHp row col := by
    intro n
    induction n with
    | zero => simpa [damageSeq] using h0
    | succ k ih =>
      rw [hstep k]
      cases h : as[k]?
      · exact ih
      · exact damageTile_hp_nonneg _ col row _ ih
  refine ⟨?_, hinv, ?_, ?_⟩
  · intro n
    rw [hstep n]
    cases h : as[n]?
    · exact le_refl _
    case some a => exact damageTile_hp_le _ col row (ha a (List.getElem?_mem h)) (hinv n)
  · intro n h1 h2
    rw [hstep n] at h2 ⊢
    cases h : as[n]?
    · rw [h] at h2
      simp only [h] at h2 ⊢
      linarith
    case some a =>
      rw [h] at h2
      simp only [h] at h2 ⊢
      exact damageTile_destroy _ col row a h1 h2
  · intro n h1
    rw [hstep n]
    cases h : as[n]?
    · rfl
    case some a => exact damageTile_default_noop _ col row a h1

end Engine

namespace Engine

theorem damageTile_mineral (m : TileMap) (col row : ℤ) (a : ℝ)
    (hr : ¬(row < 0 ∨ col < 0 ∨ row ≥ m.height ∨ col ≥ m.width))
    (ht : m.tiles row col = .mineral) :
    damageTile m col row a =
      if m.tileHp row col - a ≤ 0 then
        { m with
          tileHp := upd2 m.tileHp row col 0
          tileHighlight := upd2 m.tileHighlight row col m.highlightDuration
          tiles := upd2 m.tiles row col .default }
      else
        { m with
          tileHp := upd2 m.tileHp row col (m.tileHp row col - a)
          tileHighlight := upd2 m.tileHighlight row col m.highlightDuration } := by
  rw [damageTile, if_neg hr]
  simp only [ht, terrainMap_mineral, getTileType, TILE_TYPES]
  norm_num

theorem c3_damage_monotone_witness :
    (0 ≤ (0 : ℤ) ∧ 0 ≤ (0 : ℤ) ∧ (0 : ℤ) < mapMineral00.height ∧ (0 : ℤ) < mapMineral00.width) ∧
    (∀ a ∈ [(40 : ℝ), 40, 40], 0 ≤ a) ∧
    mapMineral00.tileHp 0 0 = 100 ∧
    (damageSeq mapMineral00 0 0 [40, 40]).tileHp 0 0 = 20 ∧
    (damageSeq mapMineral00 0 0 [40, 40, 40]).tileHp 0 0 = 0 ∧
    (damageSeq mapMineral00 0 0 [40, 40, 40]).tiles 0 0 = .default ∧
    (∀ n, 0 ≤ (damageSeq mapMineral00 0 0 ([(40 : ℝ), 40, 40].take n)).tileHp 0 0) := by
  have hin : 0 ≤ (0 : ℤ) ∧ 0 ≤ (0 : ℤ) ∧ (0 : ℤ) < mapMineral00.height ∧ (0 : ℤ) < mapMineral00.width := by
    simp [mapMineral00, mkMap]
  have ha : ∀ a ∈ [(40 : ℝ), 40, 40], 0 ≤ a := by norm_num
  have h100 : mapMineral00.tileHp 0 0 = 100 := by
    simp [mapMineral00, mkMap, terrainMap_mineral]
  have hr : ¬((0 : ℤ) < 0 ∨ (0 : ℤ) < 0 ∨ (0 : ℤ) ≥ mapMineral00.height ∨ (0 : ℤ) ≥ mapMineral00.width) := by
    simp [mapMineral00, mkMap]
  have htm : mapMineral00.tiles 0 0 = .mineral := rfl
  have e1 : damageTile mapMineral00 0 0 40 =
      { mapMineral00 with
        tileHp := upd2 mapMineral00.tileHp 0 0 (mapMineral00.tileHp 0 0 - 40)
        tileHighlight := upd2 mapMineral00.tileHighlight 0 0 mapMineral00.highlightDuration } := by
    rw [damageTile_mineral mapMineral00 0 0 40 hr htm, if_neg (by rw [h100]; norm_num)]
  set m1 := { mapMineral00 with
    tileHp := upd2 mapMineral00.tileHp 0 0 (mapMineral00.tileHp 0 0 - 40)
    tileHighlight := upd2 mapMineral00.tileHighlight 0 0 mapMineral00.highlightDuration } with hm1
  have h60 : m1.tileHp 0 0 = 60 := by
    show upd2 mapMineral00.tileHp 0 0 (mapMineral00.tileHp 0 0 - 40) 0 0 = 60
    rw [upd2_same, h100]
    norm_num
  have e2 : damageTile m1 0 0 40 =
      { m1 with
        tileHp := upd2 m1.tileHp 0 0 (m1.tileHp 0 0 - 40)
        tileHighlight := upd2 m1.tileHighlight 0 0 m1.highlightDuration } := by
    rw [damageTile_mineral m1 0 0 40 hr htm, if_neg (by rw [h60]; norm_num)]
  set m2 := { m1 with
    tileHp := upd2 m1.tileHp 0 0 (m1.tileHp 0 0 - 40)
    tileHighlight := upd2 m1.tileHighlight 0 0 m1.highlightDuration } with hm2
  have h20 : m2.tileHp 0 0 = 20 := by
    show upd2 m1.tileHp 0 0 (m1.tileHp 0 0 - 40) 0 0 = 20
    rw [upd2_same, h60]
    norm_num
  have e3 : damageTile m2 0 0 40 =
      { m2 with
        tileHp := upd2 m2.tileHp 0 0 0
        tileHighlight := upd2 m2.tileHighlight 0 0 m2.highlightDuration
        tiles := upd2 m2.tiles 0 0 .default } := by
    rw [damageTile_mineral m2 0 0 40 hr htm, if_pos (by rw [h20]; norm_num)]
  have seq2 : damageSeq mapMineral00 0 0 [40, 40] = m2 := by
    rw [damageSeq]
    show damageTile (damageTile mapMineral00 0 0 40) 0 0 40 = m2
    rw [e1, e2]
  have seq3 : damageSeq mapMineral00 0 0 [40, 40, 40] = damageTile m2 0 0 40 := by
    rw [damageSeq]
    show damageTile (damageTile (damageTile mapMineral00 0 0 40) 0 0 40) 0 0 40 = _
    rw [e1, e2]
  refine ⟨hin, ha, h100, by rw [seq2, h20], ?_, ?_,
    (c3_damage_monotone mapMineral00 0 0 [40, 40, 40] hin ha (by rw [h100]; norm_num)).2.1⟩
  · rw [seq3, e3]
    show upd2 m2.tileHp 0 0 0 0 0 = 0
    exact upd2_same ..
  · rw [seq3, e3]
    show upd2 m2.tiles 0 0 .default 0 0 = .default
    exact upd2_same ..

end Engine

namespace Engine

/-! ## C5: axis-independent sliding -/

/-- C5.  When both velocity components exceed the 0.1 motion threshold, the
x-axis move collides, and the y-axis move (with the unchanged `x`) does
not, the position resolution keeps `x`, zeroes `velocity.x`, commits
`y + velocity.y·dt` and keeps `velocity.y`: the actor slides along the
wall. -/
theorem c5_slide (m : TileMap) (s : EntityState) (delta : ℝ)
    (hx : |s.velocity.1| > 0.1) (hy : |s.velocity.2| > 0.1)
    (hcx : isCollidingRect m (s.x + s.velocity.1 * delta) s.y s.size s.size = true)
    (hcy : isCollidingRect m s.x (s.y + s.velocity.2 * delta) s.size s.size = false) :
    (updatePosition s delta (some m)).x = s.x ∧
    (updatePosition s delta (some m)).velocity.1 = 0 ∧
    (updatePosition s delta (some m)).y = s.y + s.velocity.2 * delta ∧
    (updatePosition s delta (some m)).velocity.2 = s.velocity.2 := by
  rw [updatePosition]
  simp only [hx, if_pos, hcx, Bool.not_true, Bool.false_eq_true, if_false, if_true]
  simp [hy, hcy]

theorem isCollidingRect_wall12_x :
    isCollidingRect mapWall12 60 50 49 49 = true := by
  have hcells : overlappedCells mapWall12 60 50 49 49 = [(1, 1), (1, 2)] := by
    rw [overlappedCells]
    have h1 : ⌊(60 : ℝ) / mapWall12.tileSize⌋ = 1 := by
      show ⌊(60 : ℝ) / 50⌋ = 1
      norm_num
    have h2 : ⌊((60 : ℝ) + 49 - 1) / mapWall12.tileSize⌋ = 2 := by
      show ⌊((60 : ℝ) + 49 - 1) / 50⌋ = 2
      norm_num
    have h3 : ⌊(50 : ℝ) / mapWall12.tileSize⌋ = 1 := by
      show ⌊(50 : ℝ) / 50⌋ = 1
      norm_num
    have h4 : ⌊((50 : ℝ) + 49 - 1) / mapWall12.tileSize⌋ = 1 := by
      show ⌊((50 : ℝ) + 49 - 1) / 50⌋ = 1
      norm_num
    rw [h1, h2, h3, h4]
    rfl
  rw [isCollidingRect, if_neg]
  · rw [hcells]
    simp [mapWall12, mkMap, terrainWalkable, terrainMap_wall]
  · have hw : (mapWall12.width : ℝ) = 3 := by norm_num [mapWall12, mkMap]
    have hh : (mapWall12.height : ℝ) = 3 := by norm_num [mapWall12, mkMap]
    have hts : mapWall12.tileSize = 50 := rfl
    rw [hw, hh, hts]
    push_neg
    norm_num

theorem isCollidingRect_wall12_y :
    isCollidingRect mapWall12 50 52 49 49 = false := by
  have hcells : overlappedCells mapWall12 50 52 49 49 = [(1, 1), (2, 1)] := by
    rw [overlappedCells]
    have h1 : ⌊(50 : ℝ) / mapWall12.tileSize⌋ = 1 := by
      show ⌊(50 : ℝ) / 50⌋ = 1
      norm_num
    have h2 : ⌊((50 : ℝ) + 49 - 1) / mapWall12.tileSize⌋ = 1 := by
      show ⌊((50 : ℝ) + 49 - 1) / 50⌋ = 1
      norm_num
    have h3 : ⌊(52 : ℝ) / mapWall12.tileSize⌋ = 1 := by
      show ⌊(52 : ℝ) / 50⌋ = 1
      norm_num
    have h4 : ⌊((52 : ℝ) + 49 - 1) / mapWall12.tileSize⌋ = 2 := by
      show ⌊((52 : ℝ) + 49 - 1) / 50⌋ = 2
      norm_num
    rw [h1, h2, h3, h4]
    rfl
  rw [isCollidingRect, if_neg]
  · rw [hcells]
    simp [mapWall12, mkMap, terrainWalkable, terrainMap_default]
  · have hw : (mapWall12.width : ℝ) = 3 := by norm_num [mapWall12, mkMap]
    have hh : (mapWall12.height : ℝ) = 3 := by norm_num [mapWall12, mkMap]
    have hts : mapWall12.tileSize = 50 := rfl
    rw [hw, hh, hts]
    push_neg
    norm_num

theorem c5_slide_witness :
    |(100 : ℝ)| > 0.1 ∧ |(20 : ℝ)| > 0.1 ∧
    isCollidingRect mapWall12 (50 + 100 * 0.1) 50 49 49 = true ∧
    isCollidingRect mapWall12 50 (50 + 20 * 0.1) 49 49 = false ∧
    (updatePosition { baseEntity with x := 50, y := 50, velocity := (100, 20) } 0.1
      (some mapWall12)).x = 50 ∧
    (updatePosition { baseEntity with x := 50, y := 50, velocity := (100, 20) } 0.1
      (some mapWall12)).velocity.1 = 0 ∧
    (updatePosition { baseEntity with x := 50, y := 50, velocity := (100, 20) } 0.1
      (some mapWall12)).y = 50 + 20 * 0.1 ∧
    (updatePosition { baseEntity with x := 50, y := 50, velocity := (100, 20) } 0.1
      (some mapWall12)).velocity.2 = 20 := by
  have hx : |(100 : ℝ)| > 0.1 := by norm_num
  have hy : |(20 : ℝ)| > 0.1 := by norm_num
  have e1 : (50 : ℝ) + 100 * 0.1 = 60 := by norm_num
  have e2 : (50 : ℝ) + 20 * 0.1 = 52 := by norm_num
  have hcx : isCollidingRect mapWall12 (50 + 100 * 0.1) 50 49 49 = true := by
    rw [e1]
    exact isCollidingRect_wall12_x
  have hcy : isCollidingRect mapWall12 50 (50 + 20 * 0.1) 49 49 = false := by
    rw [e2]
    exact isCollidingRect_wall12_y
  obtain ⟨c1, c2, c3, c4⟩ :=
    c5_slide mapWall12 { baseEntity with x := 50, y := 50, velocity := (100, 20) } 0.1 hx hy hcx hcy
  exact ⟨hx, hy, hcx, hcy, c1, c2, c3, c4⟩

end Engine


namespace Engine

/-! ## C7: queries touching out-of-range cells -/

/-- C7.  Whenever a query rectangle's overlapped-cell enumeration reaches a
cell outside `[0,width)×[0,height)`, `isWalkableArea` answers `false` and
`isCollidingRect` answers `true`, for arbitrary real coordinates and
sizes. -/
theorem c7_out_of_bounds (m : TileMap) (x y s w h : ℝ) (hts : 0 < m.tileSize)
    (rc₁ rc₂ : ℤ × ℤ)
    (h1 : rc₁ ∈ overlappedCells m x y s s) (h1o : cellInRange m rc₁.1 rc₁.2 = false)
    (h2 : rc₂ ∈ overlappedCells m x y w h) (h2o : cellInRange m rc₂.1 rc₂.2 = false) :
    isWalkableArea m x y s = false ∧ isCollidingRect m x y w h = true := by
  constructor
  · apply Bool.eq_false_iff.mpr
    intro hall
    rw [isWalkableArea, List.all_eq_true] at hall
    have hc := hall rc₁ h1
    rw [Bool.and_eq_true] at hc
    rw [hc.1] at h1o
    cases h1o
  · obtain ⟨hr1, hr2, hc1, hc2⟩ := mem_overlappedCells.mp h2
    rw [cellInRange, decide_eq_false_iff_not] at h2o
    have hcases : rc₂.1 < 0 ∨ rc₂.2 < 0 ∨ m.height ≤ rc₂.1 ∨ m.width ≤ rc₂.2 := by
      by_contra hcon
      push_neg at hcon
      exact h2o ⟨hcon.1, hcon.2.1, hcon.2.2.1, hcon.2.2.2⟩
    rw [isCollidingRect, if_pos]
    rcases hcases with hca | hca | hca | hca
    · have h' : ⌊y / m.tileSize⌋ < 0 := lt_of_le_of_lt hr1 hca
      have h'' : y / m.tileSize < 0 := by exact_mod_cast Int.floor_lt.mp h'
      have hy : y < 0 := by
        by_contra hge
        push_neg at hge
        exact absurd (div_nonneg hge hts.le) (not_le.mpr h'')
      exact Or.inr (Or.inl hy)
    · have h' : ⌊x / m.tileSize⌋ < 0 := lt_of_le_of_lt hc1 hca
      have h'' : x / m.tileSize < 0 := by exact_mod_cast Int.floor_lt.mp h'
      have hx : x < 0 := by
        by_contra hge
        push_neg at hge
        exact absurd (div_nonneg hge hts.le) (not_le.mpr h'')
      exact Or.inl hx
    · have h' : (m.height : ℝ) ≤ (y + h - 1) / m.tileSize :=
        Int.le_floor.mp (le_trans hca hr2)
      have h'' : (m.height : ℝ) * m.tileSize ≤ y + h - 1 := (le_div_iff₀ hts).mp h'
      exact Or.inr (Or.inr (Or.inr (by linarith)))
    · have h' : (m.width : ℝ) ≤ (x + w - 1) / m.tileSize :=
        Int.le_floor.mp (le_trans hca hc2)
      have h'' : (m.width : ℝ) * m.tileSize ≤ x + w - 1 := (le_div_iff₀ hts).mp h'
      exact Or.inr (Or.inr (Or.inl (by linarith)))

theorem c7_out_of_bounds_witness :
    0 < map3.tileSize ∧
    ((0, -1) : ℤ × ℤ) ∈ overlappedCells map3 (-10) 0 20 20 ∧
    cellInRange map3 0 (-1) = false ∧
    isWalkableArea map3 (-10) 0 20 = false ∧
    isCollidingRect map3 (-10) 0 20 20 = true := by
  have hts : 0 < map3.tileSize := by norm_num [map3, mkMap]
  have hmem : ((0, -1) : ℤ × ℤ) ∈ overlappedCells map3 (-10) 0 20 20 := by
    apply mem_overlappedCells.mpr
    refine ⟨?_, ?_, ?_, ?_⟩
    · show ⌊(0 : ℝ) / map3.tileSize⌋ ≤ 0
      show ⌊(0 : ℝ) / 50⌋ ≤ 0
      norm_num
    · show (0 : ℤ) ≤ ⌊((0 : ℝ) + 20 - 1) / map3.tileSize⌋
      show (0 : ℤ) ≤ ⌊((0 : ℝ) + 20 - 1) / 50⌋
      norm_num
    · show ⌊(-10 : ℝ) / map3.tileSize⌋ ≤ -1
      show ⌊(-10 : ℝ) / 50⌋ ≤ -1
      norm_num
    · show (-1 : ℤ) ≤ ⌊((-10 : ℝ) + 20 - 1) / map3.tileSize⌋
      show (-1 : ℤ) ≤ ⌊((-10 : ℝ) + 20 - 1) / 50⌋
      norm_num
  have hout : cellInRange map3 0 (-1) = false := by
    simp [cellInRange]
  obtain ⟨hwalk, hcoll⟩ :=
    c7_out_of_bounds map3 (-10) 0 20 20 20 hts (0, -1) (0, -1) hmem hout hmem hout
  exact ⟨hts, hmem, hout, hwalk, hcoll⟩

end Engine

namespace Engine

/-! ## C8: bounded spawn search -/

/-- The attempt loop returns only positions passing `isWalkableArea`, and
returns `none` exactly when every attempt in its fuel window fails. -/
theorem randomWalkableGo_spec (m : TileMap) (size : ℝ) (rand : ℕ → ℝ × ℝ) :
    ∀ fuel i₀,
      (∀ p, randomWalkableGo m size rand i₀ fuel = some p →
        isWalkableArea m p.1 p.2 size = true) ∧
      (randomWalkableGo m size rand i₀ fuel = none ↔
        ∀ j < fuel, isWalkableArea m (samplePosition m size (rand (i₀ + j))).1
          (samplePosition m size (rand (i₀ + j))).2 size = false) := by
  intro fuel
  induction fuel with
  | zero =>
    intro i₀
    constructor
    · intro p hp
      cases hp
    · simp [randomWalkableGo]
  | succ f ih =>
    intro i₀
    rw [randomWalkableGo]
    by_cases hw : isWalkableArea m (samplePosition m size (rand i₀)).1
        (samplePosition m size (rand i₀)).2 size = true
    · rw [if_pos hw]
      constructor
      · rintro p hp
        cases hp
        exact hw
      · constructor
        · intro hnone
          cases hnone
        · intro hall
          have := hall 0 (Nat.succ_pos f)
          rw [Nat.add_zero] at this
          rw [this] at hw
          cases hw
    · rw [if_neg hw]
      have hwf : isWalkableArea m (samplePosition m size (rand i₀)).1
          (samplePosition m size (rand i₀)).2 size = false := by
        cases hb : isWalkableArea m (samplePosition m size (rand i₀)).1
            (samplePosition m size (rand i₀)).2 size
        · rfl
        · exact absurd hb hw
      refine ⟨(ih (i₀ + 1)).1, ?_⟩
      rw [(ih (i₀ + 1)).2]
      constructor
      · intro hall j hj
        cases j with
        | zero =>
          rw [Nat.add_zero]
          exact hwf
        | succ k =>
          have := hall k (by omega)
          have harith : i₀ + 1 + k = i₀ + (k + 1) := by omega
          rw [harith] at this
          exact this
      · intro hall j hj
        have := hall (j + 1) (by omega)
        have harith : i₀ + (j + 1) = i₀ + 1 + j := by omega
        rw [harith] at this
        exact this

/-- C8.  `getRandomWalkablePosition` never returns a position that fails
`isWalkableArea`, and it signals failure (throws — modelled as `none`)
exactly when all 1000 sampling attempts land on non-walkable positions. -/
theorem c8_spawn_search (m : TileMap) (size : ℝ) (rand : ℕ → ℝ × ℝ) :
    (∀ p, getRandomWalkablePosition m size rand = some p →
      isWalkableArea m p.1 p.2 size = true) ∧
    (getRandomWalkablePosition m size rand = none ↔
      ∀ j < 1000, isWalkableArea m (samplePosition m size (rand j)).1
        (samplePosition m size (rand j)).2 size = false) := by
  have h := randomWalkableGo_spec m size rand 1000 0
  rw [getRandomWalkablePosition]
  refine ⟨h.1, ?_⟩
  rw [h.2]
  constructor
  · intro hall j hj
    have := hall j hj
    rw [Nat.zero_add] at this
    exact this
  · intro hall j hj
    rw [Nat.zero_add]
    exact hall j hj

end Engine

namespace Engine

theorem c8_spawn_search_witness :
    getRandomWalkablePosition map3 50 (fun _ => (0, 0)) = some (0, 0) ∧
    isWalkableArea map3 (0 : ℝ) (0 : ℝ) 50 = true := by
  have hsp : samplePosition map3 50 ((0 : ℝ), (0 : ℝ)) = (0, 0) := by
    rw [samplePosition]
    have h1 : ⌊(0 : ℝ) * (map3.width : ℝ)⌋ = 0 := by norm_num
    have h2 : ⌊(0 : ℝ) * (map3.height : ℝ)⌋ = 0 := by norm_num
    rw [h1, h2]
    show ((0 : ℤ) * (50 : ℝ) + (50 - 50) / 2, (0 : ℤ) * (50 : ℝ) + (50 - 50) / 2) = ((0 : ℝ), (0 : ℝ))
    norm_num
  have hcells : overlappedCells map3 0 0 50 50 = [(0, 0)] := by
    rw [overlappedCells]
    have h1 : ⌊(0 : ℝ) / map3.tileSize⌋ = 0 := by
      show ⌊(0 : ℝ) / 50⌋ = 0
      norm_num
    have h2 : ⌊((0 : ℝ) + 50 - 1) / map3.tileSize⌋ = 0 := by
      show ⌊((0 : ℝ) + 50 - 1) / 50⌋ = 0
      norm_num
    rw [h1, h2]
    rfl
  have hwalk : isWalkableArea map3 (0 : ℝ) (0 : ℝ) 50 = true := by
    rw [isWalkableArea, hcells]
    simp [cellInRange, map3, mkMap, terrainWalkable, terrainMap_default]
  have hres : getRandomWalkablePosition map3 50 (fun _ => ((0 : ℝ), (0 : ℝ))) = some (0, 0) := by
    rw [getRandomWalkablePosition, show (1000 : ℕ) = 999 + 1 from rfl, randomWalkableGo]
    simp only [hsp, hwalk, if_true]
  exact ⟨hres, (c8_spawn_search map3 50 (fun _ => (0, 0))).1 (0, 0) hres⟩

end Engine

namespace Engine

/-! ## C6: projectile impact -/

theorem pairwise_intRange (a b : ℤ) : (intRange a b).Pairwise (· < ·) := by
  rw [intRange]
  refine List.Pairwise.map _ ?_ (List.pairwise_lt_range _)
  intro i j hij
  omega

theorem pairwise_rowMajor (rows cols : List ℤ)
    (hr : rows.Pairwise (· < ·)) (hc : cols.Pairwise (· < ·)) :
    (rows.flatMap fun r => cols.map fun c => ((r, c) : ℤ × ℤ)).Pairwise rowMajorLT := by
  induction rows with
  | nil => exact List.Pairwise.nil
  | cons r rs ih =>
    rw [List.flatMap_cons, List.pairwise_append]
    rw [List.pairwise_cons] at hr
    refine ⟨?_, ih hr.2, ?_⟩
    · refine List.Pairwise.map _ ?_ hc
      intro c c' hcc
      exact Or.inr ⟨rfl, hcc⟩
    · intro u hu v hv
      obtain ⟨c, -, rfl⟩ := List.mem_map.mp hu
      obtain ⟨r', hr'mem, hv'⟩ := List.mem_flatMap.mp hv
      obtain ⟨c', -, rfl⟩ := List.mem_map.mp hv'
      exact Or.inl (hr.1 r' hr'mem)

theorem pairwise_overlappedCells (m : TileMap) (x y w h : ℝ) :
    (overlappedCells m x y w h).Pairwise rowMajorLT := by
  rw [overlappedCells]
  exact pairwise_rowMajor _ _ (pairwise_intRange _ _) (pairwise_intRange _ _)

/-- `find?` on a `Pairwise`-ordered list returns a minimal qualifying
element. -/
theorem find?_first {α : Type} {R : α → α → Prop} :
    ∀ (l : List α), l.Pairwise R → ∀ (p : α → Bool) (a : α), l.find? p = some a →
      ∀ b ∈ l, p b = true → a = b ∨ R a b := by
  intro l
  induction l with
  | nil =>
    intro _ p a ha
    cases ha
  | cons x xs ih =>
    intro hpw p a ha b hb hpb
    rw [List.pairwise_cons] at hpw
    by_cases hpx : p x = true
    · rw [List.find?_cons_of_pos _ hpx] at ha
      cases ha
      rcases List.mem_cons.mp hb with rfl | hmem
      · exact Or.inl rfl
      · exact Or.inr (hpw.1 b hmem)
    · rw [List.find?_cons_of_neg _ hpx] at ha
      rcases List.mem_cons.mp hb with rfl | hmem
      · exact absurd hpb hpx
      · exact ih hpw.2 p a ha b hmem hpb

/-- C6.  If a live projectile's candidate position overlaps an in-range
non-walkable cell, its update damages exactly the row-major-first such cell
with the projectile's damage, destroys the projectile, and does not commit
the candidate position. -/
theorem c6_projectile_hit (m : TileMap) (b : Bullet) (delta : ℝ)
    (halive : b.isDestroyed = false) (rc : ℤ × ℤ)
    (hmem : rc ∈ overlappedCells m (b.pos.1 + b.velocity.1 * delta)
      (b.pos.2 + b.velocity.2 * delta) b.size b.size)
    (hin : cellInRange m rc.1 rc.2 = true)
    (hnw : terrainWalkable (m.tiles rc.1 rc.2) = false) :
    ∃ hit : TileHit,
      getTileAtRect m (b.pos.1 + b.velocity.1 * delta)
        (b.pos.2 + b.velocity.2 * delta) b.size = some hit ∧
      cellInRange m hit.row hit.col = true ∧
      terrainWalkable (m.tiles hit.row hit.col) = false ∧
      (∀ rc' ∈ overlappedCells m (b.pos.1 + b.velocity.1 * delta)
          (b.pos.2 + b.velocity.2 * delta) b.size b.size,
        cellInRange m rc'.1 rc'.2 = true → terrainWalkable (m.tiles rc'.1 rc'.2) = false →
        rowMajorLE (hit.row, hit.col) rc') ∧
      Bullet.update b delta (some m) =
        ({ b with isDestroyed := true }, some (damageTile m hit.col hit.row b.damage)) ∧
      (Bullet.update b delta (some m)).1.pos = b.pos := by
  set px := b.pos.1 + b.velocity.1 * delta with hpx
  set py := b.pos.2 + b.velocity.2 * delta with hpy
  set p : ℤ × ℤ → Bool :=
    fun rc => cellInRange m rc.1 rc.2 && !terrainWalkable (m.tiles rc.1 rc.2) with hp
  have hprc : p rc = true := by
    rw [hp, Bool.and_eq_true, hin, hnw]
    exact ⟨rfl, rfl⟩
  cases hfind : (overlappedCells m px py b.size b.size).find? p with
  | none =>
    exact absurd hprc (List.find?_eq_none.mp hfind rc hmem)
  | some rc₀ =>
    have hprc₀ := List.find?_some hfind
    rw [hp, Bool.and_eq_true, Bool.not_eq_true'] at hprc₀
    have hgt : getTileAtRect m px py b.size =
        some ⟨terrainMap (m.tiles rc₀.1 rc₀.2), rc₀.1, rc₀.2, m.tileHp rc₀.1 rc₀.2⟩ := by
      rw [getTileAtRect, hfind]
      rfl
    refine ⟨⟨terrainMap (m.tiles rc₀.1 rc₀.2), rc₀.1, rc₀.2, m.tileHp rc₀.1 rc₀.2⟩,
      hgt, hprc₀.1, hprc₀.2, ?_, ?_, ?_⟩
    · intro rc' hmem' hin' hnw'
      have := find?_first _ (pairwise_overlappedCells m px py b.size b.size) p rc₀ hfind rc'
        hmem' (by rw [hp, Bool.and_eq_true, hin', hnw']; exact ⟨rfl, rfl⟩)
      rcases this with rfl | hlt
      · exact Or.inr ⟨rfl, le_refl _⟩
      · rcases hlt with h | ⟨h1, h2⟩
        · exact Or.inl h
        · exact Or.inr ⟨h1, le_of_lt h2⟩
    · rw [Bullet.update, if_neg (by rw [halive]; intro hcon; cases hcon)]
      simp only [← hpx, ← hpy, hgt]
    · rw [Bullet.update, if_neg (by rw [halive]; intro hcon; cases hcon)]
      simp only [← hpx, ← hpy, hgt]

end Engine

namespace Engine

theorem c6_projectile_hit_witness :
    ((1 : ℤ), (1 : ℤ)) ∈ overlappedCells mapWall11 (30 + 200 * 0.1) (60 + 0 * 0.1) 10 10 ∧
    cellInRange mapWall11 1 1 = true ∧
    terrainWalkable (mapWall11.tiles 1 1) = false ∧
    (Bullet.update ⟨(30, 60), (200, 0), 10, false, 10⟩ 0.1 (some mapWall11)).1.isDestroyed = true ∧
    (Bullet.update ⟨(30, 60), (200, 0), 10, false, 10⟩ 0.1 (some mapWall11)).1.pos = (30, 60) ∧
    (Bullet.update ⟨(30, 60), (200, 0), 10, false, 10⟩ 0.1 (some mapWall11)).2 =
      some (damageTile mapWall11 1 1 10) := by
  have hmem : ((1 : ℤ), (1 : ℤ)) ∈ overlappedCells mapWall11 (30 + 200 * 0.1) (60 + 0 * 0.1) 10 10 := by
    apply mem_overlappedCells.mpr
    refine ⟨?_, ?_, ?_, ?_⟩
    · show ⌊((60 : ℝ) + 0 * 0.1) / mapWall11.tileSize⌋ ≤ 1
      show ⌊((60 : ℝ) + 0 * 0.1) / 50⌋ ≤ 1
      norm_num
    · show (1 : ℤ) ≤ ⌊(((60 : ℝ) + 0 * 0.1) + 10 - 1) / mapWall11.tileSize⌋
      show (1 : ℤ) ≤ ⌊(((60 : ℝ) + 0 * 0.1) + 10 - 1) / 50⌋
      norm_num
    · show ⌊((30 : ℝ) + 200 * 0.1) / mapWall11.tileSize⌋ ≤ 1
      show ⌊((30 : ℝ) + 200 * 0.1) / 50⌋ ≤ 1
      norm_num
    · show (1 : ℤ) ≤ ⌊(((30 : ℝ) + 200 * 0.1) + 10 - 1) / mapWall11.tileSize⌋
      show (1 : ℤ) ≤ ⌊(((30 : ℝ) + 200 * 0.1) + 10 - 1) / 50⌋
      norm_num
  have hin : cellInRange mapWall11 1 1 = true := by
    simp [cellInRange, mapWall11, mkMap]
  have hnw : terrainWalkable (mapWall11.tiles 1 1) = false := by
    have ht : mapWall11.tiles 1 1 = .wall := by simp [mapWall11, mkMap]
    rw [ht, terrainWalkable, terrainMap_wall]
  obtain ⟨hit, hgt, hhin, hhnw, hmin, hupd, hpos⟩ :=
    c6_projectile_hit mapWall11 ⟨(30, 60), (200, 0), 10, false, 10⟩ 0.1 rfl (1, 1) hmem hin hnw
  have hhit : hit.row = 1 ∧ hit.col = 1 := by
    have h1 := hmin (1, 1) hmem hin hnw
    -- hit is the row-major first qualifying cell; (1,1) is the only one,
    -- so the minimality plus the hit's own membership pin it down
    have hgt' := hgt
    rw [getTileAtRect] at hgt'
    cases hfind : (overlappedCells mapWall11 (30 + 200 * 0.1) (60 + 0 * 0.1) 10 10).find?
        (fun rc => cellInRange mapWall11 rc.1 rc.2 && !terrainWalkable (mapWall11.tiles rc.1 rc.2)) with
    | none =>
      rw [hfind] at hgt'
      cases hgt'
    | some rc₀ =>
      rw [hfind] at hgt'
      have hmem₀ := List.mem_of_find?_eq_some hfind
      have hcells : overlappedCells mapWall11 (30 + 200 * 0.1) (60 + 0 * 0.1) 10 10 = [(1, 1)] := by
        rw [overlappedCells]
        have h1' : ⌊((30 : ℝ) + 200 * 0.1) / mapWall11.tileSize⌋ = 1 := by
          show ⌊((30 : ℝ) + 200 * 0.1) / 50⌋ = 1
          norm_num
        have h2' : ⌊(((30 : ℝ) + 200 * 0.1) + 10 - 1) / mapWall11.tileSize⌋ = 1 := by
          show ⌊(((30 : ℝ) + 200 * 0.1) + 10 - 1) / 50⌋ = 1
          norm_num
        have h3' : ⌊((60 : ℝ) + 0 * 0.1) / mapWall11.tileSize⌋ = 1 := by
          show ⌊((60 : ℝ) + 0 * 0.1) / 50⌋ = 1
          norm_num
        have h4' : ⌊(((60 : ℝ) + 0 * 0.1) + 10 - 1) / mapWall11.tileSize⌋ = 1 := by
          show ⌊(((60 : ℝ) + 0 * 0.1) + 10 - 1) / 50⌋ = 1
          norm_num
        rw [h1', h2', h3', h4']
        rfl
      rw [hcells] at hmem₀
      rcases List.mem_singleton.mp hmem₀ with rfl
      cases hgt'
      exact ⟨rfl, rfl⟩
  refine ⟨hmem, hin, hnw, ?_, hpos, ?_⟩
  · rw [hupd]
  · rw [hupd, hhit.1, hhit.2]

end Engine

namespace Engine

/-! ## C1: the position clamp -/

/-- At rest with zero input and zero target, the non-linear velocity update
returns the zero velocity. -/
theorem updateVelocityNonlinear_zero (S : EntityState) (hS : S.velocity = (0, 0)) :
    updateVelocityNonlinear S (0, 0) (0, 0) 1 = (0, 0) := by
  rw [updateVelocityNonlinear, hS]
  norm_num [vsub, vlen]

/-- With a zero look direction and zero velocity there is no target angle,
so the rotation update returns the state unchanged. -/
theorem updateRotation_no_target (S : EntityState) (c : Bool) (δ : ℝ)
    (hS : S.velocity = (0, 0)) : updateRotation S δ (some (0, 0)) c = S := by
  have ht : rotationTarget S (some (0, 0)) = none := by
    rw [rotationTarget, hS]
    norm_num [vlen]
  rw [updateRotation, ht]

/-- An actor at rest is not moved by the position resolution. -/
theorem updatePosition_at_rest (S : EntityState) (m : TileMap) (δ : ℝ)
    (hS : S.velocity = (0, 0)) : updatePosition S δ (some m) = S := by
  rw [updatePosition]
  norm_num [hS]

/-- C1 (code-bug evidence).  `Entities.limitPosition` computes its
horizontal bound as `map.width * map.width` instead of
`map.width * map.tileSize` (the vertical bound on the adjacent source line
does use `tileSize`).  On a 60×10 map (3000 px wide) with actor size 49,
the claim requires the post-clamp `x` to satisfy
`x ≤ width·tileSize − size = 2951`, but both the clamp and a whole `update`
call leave an actor at `x = 3500` (< 60·60 − 49) unmoved. -/
theorem c1_clamp_code_bug :
    (limitPosition mapDefault60 { baseEntity with x := 3500, y := 0 }).x = 3500 ∧
    (update { baseEntity with x := 3500, y := 0 } 1 (0, 0) (0, 0)
      (some mapDefault60) false).x = 3500 ∧
    (mapDefault60.width : ℝ) * mapDefault60.tileSize - 49 = 2951 ∧
    ¬((3500 : ℝ) ≤ 2951) := by
  have hlim : limitPosition mapDefault60 { baseEntity with x := 3500, y := 0 } =
      { baseEntity with x := 3500, y := 0 } := by
    rw [limitPosition]
    have hw : (mapDefault60.width : ℝ) = 60 := by norm_num [mapDefault60, mkMap]
    have hh : (mapDefault60.height : ℝ) = 10 := by norm_num [mapDefault60, mkMap]
    have hts : mapDefault60.tileSize = 50 := rfl
    rw [hw, hh, hts]
    show ({ baseEntity with
      x := max 0 (min (60 * 60 - 49) 3500), y := max 0 (min (10 * 50 - 49) 0) } : EntityState) = _
    norm_num
  have htv : vscale (effSpeedFactor (some mapDefault60) 3500 0)
      (vscale baseEntity.maxSpeed (0, 0)) = (0, 0) := by
    simp [vscale]
  refine ⟨by rw [hlim], ?_, ?_, by norm_num⟩
  · rw [update]
    simp only [hlim]
    rw [htv, updateVelocityNonlinear_zero _ rfl, updateRotation_no_target _ _ _ rfl,
      updatePosition_at_rest _ _ _ rfl]
  · have hw : (mapDefault60.width : ℝ) = 60 := by norm_num [mapDefault60, mkMap]
    have hts : mapDefault60.tileSize = 50 := rfl
    rw [hw, hts]
    norm_num

end Engine

namespace Engine

theorem jsMod_bounds (a b : ℝ) (hb : 0 < b) (ha : 0 ≤ a) :
    0 ≤ jsMod a b ∧ jsMod a b < b := by
  have hdiv : 0 ≤ a / b := div_nonneg ha hb.le
  rw [jsMod, jsTrunc, if_pos hdiv]
  constructor
  · have h1 : (⌊a / b⌋ : ℝ) ≤ a / b := Int.floor_le _
    have h2 : b * (⌊a / b⌋ : ℝ) ≤ a := by
      calc b * (⌊a / b⌋ : ℝ) ≤ b * (a / b) := by
            exact mul_le_mul_of_nonneg_left h1 hb.le
        _ = a := by field_simp
    linarith
  · have h1 : a / b < (⌊a / b⌋ : ℝ) + 1 := Int.lt_floor_add_one _
    have h2 : a < b * ((⌊a / b⌋ : ℝ) + 1) := by
      calc a = b * (a / b) := by field_simp
        _ < b * ((⌊a / b⌋ : ℝ) + 1) := by
            exact mul_lt_mul_of_pos_left h1 hb
    nlinarith
  
theorem jsMod_shift_one (a b : ℝ) (hb : 0 < b) (h1 : b ≤ a) (h2 : a < 2 * b) :
    jsMod a b = a - b := by
  have hdiv : 0 ≤ a / b := div_nonneg (le_trans hb.le h1) hb.le
  have hfl : ⌊a / b⌋ = 1 := by
    rw [Int.floor_eq_iff]
    constructor
    · rw [le_div_iff₀ hb]
      push_cast
      linarith
    · rw [div_lt_iff₀ hb]
      push_cast
      linarith
  rw [jsMod, jsTrunc, if_pos hdiv, hfl]
  push_cast
  ring

theorem jsMod_neg_small (a b : ℝ) (hb : 0 < b) (h1 : -b < a) (h2 : a < 0) :
    jsMod a b = a := by
  have hdiv : ¬(0 ≤ a / b) := by
    rw [not_le]
    exact div_neg_of_neg_of_pos h2 hb
  have hc : ⌈a / b⌉ = 0 := by
    rw [Int.ceil_eq_zero_iff]
    constructor
    · show (-1 : ℝ) < a / b
      rw [lt_div_iff₀ hb]
      linarith
    · show a / b ≤ 0
      exact le_of_lt (by rw [not_le] at hdiv; exact hdiv)
  rw [jsMod, jsTrunc, if_neg hdiv, hc]
  norm_num

theorem updateRotation_eval (s : EntityState) (δ : ℝ) (d : Option Vec) (coin : Bool) (t : ℝ)
    (ht : rotationTarget s d = some t) :
    (updateRotation s δ d coin).currentRotation =
      jsMod ((if |tieBreak s.rotationStrategy coin (normDiff t s.currentRotation)| >
          s.rotationSpeed * δ then
        s.currentRotation + Real.sign (tieBreak s.rotationStrategy coin
          (normDiff t s.currentRotation)) * (s.rotationSpeed * δ)
      else t) + π) (2 * π) - π := by
  rw [updateRotation, ht]

end Engine

namespace Engine

theorem vlen_one_zero : vlen (1, 0) = 1 := by
  rw [vlen]
  norm_num

theorem vlen_zero_negone : vlen (0, -1) = 1 := by
  rw [vlen]
  norm_num

theorem atan2_zero_one : atan2 0 1 = 0 := by
  rw [atan2]
  have : (⟨1, 0⟩ : ℂ) = 1 := by
    refine Complex.ext ?_ ?_ <;> simp
  rw [this, Complex.arg_one]

theorem atan2_negone_zero : atan2 (-1) 0 = -(π / 2) := by
  rw [atan2]
  have : (⟨0, -1⟩ : ℂ) = -Complex.I := by
    refine Complex.ext ?_ ?_ <;> simp
  rw [this, Complex.arg_neg_I]

theorem rotTargetA : rotationTarget { baseEntity with rotationStrategy := .cw } (some (1, 0)) =
    some π := by
  rw [rotationTarget, if_pos (by rw [vlen_one_zero]; norm_num)]
  rw [atan2_zero_one, zero_add]

theorem rotTargetB :
    rotationTarget { baseEntity with currentRotation := -3, rotationStrategy := .cw }
      (some (0, -1)) = some (π / 2) := by
  rw [rotationTarget, if_pos (by rw [vlen_zero_negone]; norm_num)]
  rw [atan2_negone_zero]
  rw [show -(π / 2) + π = π / 2 by ring]

end Engine

namespace Engine

/-- C2 (counterexample).  Two failures of the `(-π, π]` claim.
(a) With heading 0 and look direction `(1, 0)` (target angle π, an exact
reversal), the normalized angular difference evaluates to `-π ∉ (-π, π]`,
and with `dt = 1` the update completes the turn and the renormalized stored
heading is also `-π ∉ (-π, π]`.
(b) With heading `-3 ∈ (-π, π]`, look direction `(0, -1)` and `dt = 1/8`,
the clamped rotation step drives the heading to `-3 - π/2 < -π`, and the
JS-remainder renormalization leaves it there — far outside `(-π, π]`. -/
theorem c2_heading_counterexample :
    (rotationTarget { baseEntity with rotationStrategy := .cw } (some (1, 0)) = some π ∧
     normDiff π ({ baseEntity with rotationStrategy := .cw } : EntityState).currentRotation = -π ∧
     (-π) ∉ Set.Ioc (-π) π ∧
     (updateRotation { baseEntity with rotationStrategy := .cw } 1
       (some (1, 0)) false).currentRotation = -π) ∧
    (({ baseEntity with currentRotation := -3, rotationStrategy := .cw } :
        EntityState).currentRotation ∈ Set.Ioc (-π) π ∧
     (updateRotation { baseEntity with currentRotation := -3, rotationStrategy := .cw } (1 / 8)
       (some (0, -1)) false).currentRotation = -3 - π / 2 ∧
     (-3 - π / 2) ∉ Set.Ioc (-π) π) := by
  have hpi := Real.pi_pos
  have hpi3 := Real.pi_gt_three
  have hpi315 := Real.pi_lt_d2
  have hndA : normDiff π ({ baseEntity with rotationStrategy := .cw } : EntityState).currentRotation = -π := by
    show normDiff π 0 = -π
    rw [normDiff, show π - 0 + π = 2 * π by ring,
      jsMod_shift_one (2 * π) (2 * π) (by linarith) le_rfl (by linarith)]
    ring
  have htbA : tieBreak RotationStrategy.cw false (-π) = π := by
    rw [tieBreak, if_pos]
    rw [abs_neg, abs_of_pos hpi]
    constructor <;> linarith
  refine ⟨⟨rotTargetA, hndA, ?_, ?_⟩, ⟨?_, ?_, ?_⟩⟩
  · simp [Set.mem_Ioc]
  · rw [updateRotation_eval _ _ _ _ _ rotTargetA]
    rw [show ({ baseEntity with rotationStrategy := .cw } : EntityState).rotationStrategy =
      RotationStrategy.cw from rfl]
    rw [hndA, htbA]
    rw [show ({ baseEntity with rotationStrategy := .cw } : EntityState).rotationSpeed =
      4 * π from rfl]
    rw [show ({ baseEntity with rotationStrategy := .cw } : EntityState).currentRotation =
      0 from rfl]
    rw [if_neg (by rw [abs_of_pos hpi]; intro hcon; linarith)]
    rw [show π + π = 2 * π by ring,
      jsMod_shift_one (2 * π) (2 * π) (by linarith) le_rfl (by linarith)]
    ring
  · constructor
    · show -π < -3
      linarith
    · show (-3 : ℝ) ≤ π
      linarith
  · rw [updateRotation_eval _ _ _ _ _ rotTargetB]
    rw [show ({ baseEntity with currentRotation := -3, rotationStrategy := .cw } :
      EntityState).rotationStrategy = RotationStrategy.cw from rfl]
    rw [show ({ baseEntity with currentRotation := -3, rotationStrategy := .cw } :
      EntityState).rotationSpeed = 4 * π from rfl]
    rw [show ({ baseEntity with currentRotation := -3, rotationStrategy := .cw } :
      EntityState).currentRotation = (-3 : ℝ) from rfl]
    have hndB : normDiff (π / 2) (-3 : ℝ) = 3 - 3 * π / 2 := by
      rw [normDiff, show π / 2 - (-3) + π = 3 * π / 2 + 3 by ring,
        jsMod_shift_one (3 * π / 2 + 3) (2 * π) (by linarith) (by linarith) (by linarith)]
      ring
    have habs : |(3 : ℝ) - 3 * π / 2| = 3 * π / 2 - 3 := by
      rw [abs_of_neg (by linarith)]
      ring
    have htbB : tieBreak RotationStrategy.cw false (3 - 3 * π / 2) = 3 - 3 * π / 2 := by
      rw [tieBreak, if_neg]
      rintro ⟨h1, -⟩
      rw [habs] at h1
      linarith
    rw [hndB, htbB, if_pos (by rw [habs]; linarith)]
    rw [Real.sign_of_neg (by linarith : (3 : ℝ) - 3 * π / 2 < 0)]
    rw [show (-3 : ℝ) + -1 * (4 * π * (1 / 8)) + π = π / 2 - 3 by ring]
    rw [jsMod_neg_small (π / 2 - 3) (2 * π) (by linarith) (by linarith) (by linarith)]
    ring
  · rw [Set.mem_Ioc]
    rintro ⟨h1, -⟩
    linarith

end Engine

namespace Engine

theorem rotationTarget_mem (s : EntityState) (d : Option Vec) (t : ℝ)
    (h : rotationTarget s d = some t) : 0 < t ∧ t ≤ 2 * π := by
  have harg : ∀ y x : ℝ, 0 < atan2 y x + π ∧ atan2 y x + π ≤ 2 * π := by
    intro y x
    have hm := Complex.arg_mem_Ioc ⟨x, y⟩
    rw [Set.mem_Ioc] at hm
    rw [atan2]
    constructor <;> linarith [hm.1, hm.2]
  cases d with
  | none =>
    rw [rotationTarget] at h
    by_cases hv : vlen s.velocity > 1e-3
    · rw [if_pos hv, Option.some.injEq] at h
      subst h
      exact harg _ _
    · rw [if_neg hv] at h
      cases h
  | some dv =>
    rw [rotationTarget] at h
    by_cases h1 : vlen dv > 0.01
    · rw [if_pos h1, Option.some.injEq] at h
      subst h
      exact harg _ _
    · rw [if_neg h1] at h
      by_cases hv : vlen s.velocity > 1e-3
      · rw [if_pos hv, Option.some.injEq] at h
        subst h
        exact harg _ _
      · rw [if_neg hv] at h
        cases h

/-- C2 (amended).  For every heading in `(-π, π]` and every rotation
update that has a target angle (with nonnegative `dt` and rotation speed):
the normalized angular difference lies in `[-π, π)` (it equals `-π` exactly at
reversals), after the tie-break it lies in `[-π, π]`, and the renormalized
stored heading lies in `(-2π, π)` — it lies in `[-π, π)` whenever the
pre-renormalization heading is at least `-π`, but the JS-remainder
renormalization leaves values below `-π` unchanged. -/
theorem c2_heading_amended (s : EntityState) (δ : ℝ) (d : Option Vec) (coin : Bool) (t : ℝ)
    (hcur : s.currentRotation ∈ Set.Ioc (-π) π)
    (ht : rotationTarget s d = some t)
    (hδ : 0 ≤ δ) (hrs : 0 ≤ s.rotationSpeed) :
    normDiff t s.currentRotation ∈ Set.Ico (-π) π ∧
    tieBreak s.rotationStrategy coin (normDiff t s.currentRotation) ∈ Set.Icc (-π) π ∧
    (updateRotation s δ d coin).currentRotation ∈ Set.Ioo (-(2 * π)) π := by
  have hpi := Real.pi_pos
  obtain ⟨ht1, ht2⟩ := rotationTarget_mem s d t ht
  rw [Set.mem_Ioc] at hcur
  have hnd : normDiff t s.currentRotation ∈ Set.Ico (-π) π := by
    rw [normDiff, Set.mem_Ico]
    have ha : 0 ≤ t - s.currentRotation + π := by linarith [hcur.2]
    obtain ⟨hb1, hb2⟩ := jsMod_bounds (t - s.currentRotation + π) (2 * π) (by linarith) ha
    constructor <;> linarith
  rw [Set.mem_Ico] at hnd
  have htb : tieBreak s.rotationStrategy coin (normDiff t s.currentRotation) ∈ Set.Icc (-π) π := by
    rw [tieBreak.eq_def]
    split
    · cases s.rotationStrategy with
      | cw =>
        show (π : ℝ) ∈ Set.Icc (-π) π
        exact Set.mem_Icc.mpr ⟨by linarith, le_rfl⟩
      | ccw =>
        show (-π : ℝ) ∈ Set.Icc (-π) π
        exact Set.mem_Icc.mpr ⟨le_rfl, by linarith⟩
      | auto =>
        cases coin
        · show (-π : ℝ) ∈ Set.Icc (-π) π
          exact Set.mem_Icc.mpr ⟨le_rfl, by linarith⟩
        · show (π : ℝ) ∈ Set.Icc (-π) π
          exact Set.mem_Icc.mpr ⟨by linarith, le_rfl⟩
    · exact Set.mem_Icc.mpr ⟨hnd.1, le_of_lt hnd.2⟩
  refine ⟨Set.mem_Ico.mpr hnd, htb, ?_⟩
  rw [updateRotation_eval s δ d coin t ht]
  rw [Set.mem_Icc] at htb
  by_cases hbig : |tieBreak s.rotationStrategy coin (normDiff t s.currentRotation)| >
      s.rotationSpeed * δ
  · rw [if_pos hbig]
    have hmr : 0 ≤ s.rotationSpeed * δ := mul_nonneg hrs hδ
    have habs : |Real.sign (tieBreak s.rotationStrategy coin (normDiff t s.currentRotation)) *
        (s.rotationSpeed * δ)| ≤ s.rotationSpeed * δ := by
      rw [abs_mul]
      rcases lt_trichotomy (tieBreak s.rotationStrategy coin (normDiff t s.currentRotation)) 0 with
        hneg | hzero | hpos
      · rw [Real.sign_of_neg hneg, abs_neg, abs_one, one_mul, abs_of_nonneg hmr]
      · exfalso
        rw [hzero, abs_zero] at hbig
        linarith
      · rw [Real.sign_of_pos hpos, abs_one, one_mul, abs_of_nonneg hmr]
    have habs2 := abs_le.mp habs
    have hd2pi : |tieBreak s.rotationStrategy coin (normDiff t s.currentRotation)| ≤ π :=
      abs_le.mpr ⟨htb.1, htb.2⟩
    have hsml : s.rotationSpeed * δ < π := lt_of_lt_of_le hbig hd2pi
    set r1 := s.currentRotation + Real.sign (tieBreak s.rotationStrategy coin
      (normDiff t s.currentRotation)) * (s.rotationSpeed * δ) with hr1
    have hr1b : -(2 * π) < r1 ∧ r1 < 2 * π := by
      constructor <;> [nlinarith [hcur.1]; nlinarith [hcur.2]]
    by_cases hge : -π ≤ r1
    · obtain ⟨hb1, hb2⟩ := jsMod_bounds (r1 + π) (2 * π) (by linarith) (by linarith)
      rw [Set.mem_Ioo]
      constructor <;> linarith
    · push_neg at hge
      rw [jsMod_neg_small (r1 + π) (2 * π) (by linarith) (by linarith [hr1b.1]) (by linarith)]
      rw [Set.mem_Ioo]
      constructor <;> linarith [hr1b.1]
  · rw [if_neg hbig]
    obtain ⟨hb1, hb2⟩ := jsMod_bounds (t + π) (2 * π) (by linarith) (by linarith)
    rw [Set.mem_Ioo]
    constructor <;> linarith

end Engine

namespace Engine

theorem c2_heading_amended_witness :
    (({ baseEntity with rotationStrategy := .cw } : EntityState).currentRotation ∈
      Set.Ioc (-π) π) ∧
    rotationTarget { baseEntity with rotationStrategy := .cw } (some (1, 0)) = some π ∧
    normDiff π ({ baseEntity with rotationStrategy := .cw } : EntityState).currentRotation ∈
      Set.Ico (-π) π ∧
    (updateRotation { baseEntity with rotationStrategy := .cw } 1
      (some (1, 0)) false).currentRotation ∈ Set.Ioo (-(2 * π)) π := by
  have hcur : ({ baseEntity with rotationStrategy := .cw } : EntityState).currentRotation ∈
      Set.Ioc (-π) π := by
    show (0 : ℝ) ∈ Set.Ioc (-π) π
    exact Set.mem_Ioc.mpr ⟨by linarith [Real.pi_pos], le_of_lt Real.pi_pos⟩
  have hrs : (0 : ℝ) ≤ ({ baseEntity with rotationStrategy := .cw } : EntityState).rotationSpeed := by
    show (0 : ℝ) ≤ 4 * π
    positivity
  obtain ⟨ha, -, hc⟩ := c2_heading_amended { baseEntity with rotationStrategy := .cw } 1
    (some (1, 0)) false π hcur rotTargetA (by norm_num) hrs
  exact ⟨hcur, rotTargetA, ha, hc⟩

end Engine

namespace Engine

theorem toC_vadd (a b : Vec) : toC (vadd a b) = toC a + toC b := by
  refine Complex.ext ?_ ?_ <;> simp [toC, vadd]

theorem toC_vsub (a b : Vec) : toC (vsub a b) = toC a - toC b := by
  refine Complex.ext ?_ ?_ <;> simp [toC, vsub]

theorem toC_vscale (r : ℝ) (a : Vec) : toC (vscale r a) = (r : ℂ) * toC a := by
  refine Complex.ext ?_ ?_ <;> simp [toC, vscale]

theorem vlen_eq_abs (v : Vec) : vlen v = Complex.abs (toC v) := by
  rw [vlen, Complex.abs_apply, toC, Complex.normSq_mk]

theorem vlen_nonneg (v : Vec) : 0 ≤ vlen v := Real.sqrt_nonneg _

theorem vlen_zero : vlen ((0 : ℝ), (0 : ℝ)) = 0 := by
  rw [vlen]
  norm_num

theorem vadd_vsub (v t : Vec) : vadd v (vsub t v) = t := by
  rw [vadd, vsub]
  exact Prod.ext (by ring) (by ring)

theorem vlen_segment (v w : Vec) (c : ℝ) (h0 : 0 ≤ c) (h1 : c ≤ 1) :
    vlen (vadd v (vscale c (vsub w v))) ≤ max (vlen v) (vlen w) := by
  rw [vlen_eq_abs, vlen_eq_abs, vlen_eq_abs, toC_vadd, toC_vscale, toC_vsub]
  have heq : toC v + (c : ℂ) * (toC w - toC v) =
      ((1 - c : ℝ) : ℂ) * toC v + (c : ℂ) * toC w := by
    push_cast
    ring
  rw [heq]
  calc Complex.abs (((1 - c : ℝ) : ℂ) * toC v + (c : ℂ) * toC w)
      ≤ Complex.abs (((1 - c : ℝ) : ℂ) * toC v) + Complex.abs ((c : ℂ) * toC w) :=
        Complex.abs.add_le _ _
    _ = (1 - c) * Complex.abs (toC v) + c * Complex.abs (toC w) := by
        rw [map_mul, map_mul, Complex.abs_ofReal, Complex.abs_ofReal,
          abs_of_nonneg (by linarith), abs_of_nonneg h0]
    _ ≤ max (Complex.abs (toC v)) (Complex.abs (toC w)) := by
        rcases le_total (Complex.abs (toC v)) (Complex.abs (toC w)) with hle | hle
        · rw [max_eq_right hle]
          nlinarith
        · rw [max_eq_left hle]
          nlinarith

theorem vlen_vscale (r : ℝ) (v : Vec) : vlen (vscale r v) = |r| * vlen v := by
  rw [vlen_eq_abs, vlen_eq_abs, toC_vscale, map_mul, Complex.abs_ofReal]

end Engine

namespace Engine

theorem updateVelocityNonlinear_le (s : EntityState) (targetVel dir : Vec) (δ : ℝ)
    (ha : 0 ≤ s.accel) (hd : 0 ≤ s.decel) (hδ : 0 ≤ δ) :
    vlen (updateVelocityNonlinear s targetVel dir δ) ≤ max (vlen s.velocity) (vlen targetVel) := by
  have hmax0 : (0 : ℝ) ≤ max (vlen s.velocity) (vlen targetVel) :=
    le_trans (vlen_nonneg _) (le_max_left _ _)
  simp only [updateVelocityNonlinear]
  by_cases hdiff : vlen (vsub targetVel s.velocity) > 0
  · rw [if_pos hdiff]
    set acceleration := if vlen dir > 0 then s.accel else s.decel with hacc
    have haccnn : 0 ≤ acceleration := by
      rw [hacc]
      split <;> assumption
    set sf := if vlen targetVel > 0 then vlen s.velocity / vlen targetVel else 0 with hsf
    set maxDelta := acceleration * δ *
      (if vlen dir > 0 then Real.sqrt (sf + s.nonlinearFactor)
       else Real.sqrt (1 - sf + s.nonlinearFactor)) with hmd
    have hmdnn : 0 ≤ maxDelta := by
      rw [hmd]
      refine mul_nonneg (mul_nonneg haccnn hδ) ?_
      split <;> exact Real.sqrt_nonneg _
    by_cases hclamp : vlen (vsub targetVel s.velocity) > maxDelta
    · rw [if_pos hclamp]
      have hle : maxDelta / vlen (vsub targetVel s.velocity) ≤ 1 := by
        rw [div_le_one hdiff]
        exact le_of_lt hclamp
      have hge : 0 ≤ maxDelta / vlen (vsub targetVel s.velocity) :=
        div_nonneg hmdnn (le_of_lt hdiff)
      split
      · rw [vlen_zero]
        exact hmax0
      · exact vlen_segment s.velocity targetVel _ hge hle
    · rw [if_neg hclamp]
      rw [vadd_vsub]
      split
      · rw [vlen_zero]
        exact hmax0
      · exact le_max_right _ _
  · rw [if_neg hdiff]
    split
    · rw [vlen_zero]
      exact hmax0
    · exact le_max_left _ _

end Engine

namespace Engine

theorem updateRotation_proj (s : EntityState) (δ : ℝ) (d : Option Vec) (coin : Bool) :
    (updateRotation s δ d coin).velocity = s.velocity ∧
    (updateRotation s δ d coin).x = s.x ∧
    (updateRotation s δ d coin).y = s.y ∧
    (updateRotation s δ d coin).size = s.size ∧
    (updateRotation s δ d coin).maxSpeed = s.maxSpeed ∧
    (updateRotation s δ d coin).accel = s.accel ∧
    (updateRotation s δ d coin).decel = s.decel ∧
    (updateRotation s δ d coin).nonlinearFactor = s.nonlinearFactor ∧
    (updateRotation s δ d coin).rotationSpeed = s.rotationSpeed ∧
    (updateRotation s δ d coin).rotationStrategy = s.rotationStrategy := by
  rw [updateRotation]
  cases rotationTarget s d <;>
    exact ⟨rfl, rfl, rfl, rfl, rfl, rfl, rfl, rfl, rfl, rfl⟩

theorem vlen_fst_zero (a b : ℝ) : vlen (0, b) ≤ vlen (a, b) := by
  rw [vlen, vlen]
  apply Real.sqrt_le_sqrt
  show (0 : ℝ) * 0 + b * b ≤ a * a + b * b
  nlinarith [sq_nonneg a]

theorem vlen_snd_zero (a b : ℝ) : vlen (a, 0) ≤ vlen (a, b) := by
  rw [vlen, vlen]
  apply Real.sqrt_le_sqrt
  show a * a + (0 : ℝ) * 0 ≤ a * a + b * b
  nlinarith [sq_nonneg b]

theorem updatePosition_velocity_le (s : EntityState) (δ : ℝ) (m? : Option TileMap) :
    vlen (updatePosition s δ m?).velocity ≤ vlen s.velocity := by
  cases m? with
  | none => exact le_refl _
  | some m =>
    rw [updatePosition]
    have hpair : ∀ u : EntityState, u.velocity = s.velocity ∨ u.velocity = (0, s.velocity.2) →
        vlen u.velocity ≤ vlen s.velocity := by
      rintro u (hu | hu) <;> rw [hu]
      have := vlen_fst_zero s.velocity.1 s.velocity.2
      calc vlen ((0 : ℝ), s.velocity.2) ≤ vlen (s.velocity.1, s.velocity.2) := this
        _ = vlen s.velocity := rfl
    have hs1 : ∃ u : EntityState,
        (if |s.velocity.1| > 0.1 then
          if !isCollidingRect m (s.x + s.velocity.1 * δ) s.y s.size s.size then
            { s with x := s.x + s.velocity.1 * δ }
          else { s with velocity := (0, s.velocity.2) }
        else s) = u ∧
        (u.velocity = s.velocity ∨ u.velocity = (0, s.velocity.2)) := by
      split_ifs with h1 h2
      · exact ⟨_, rfl, Or.inl rfl⟩
      · exact ⟨_, rfl, Or.inr rfl⟩
      · exact ⟨_, rfl, Or.inl rfl⟩
    obtain ⟨u, hu, hvu⟩ := hs1
    rw [hu]
    have hule := hpair u hvu
    split_ifs with h3 h4
    · exact hule
    · calc vlen ((({ u with velocity := (u.velocity.1, 0) }) : EntityState).velocity)
          = vlen (u.velocity.1, 0) := rfl
        _ ≤ vlen (u.velocity.1, u.velocity.2) := vlen_snd_zero _ _
        _ = vlen u.velocity := rfl
        _ ≤ vlen s.velocity := hule
    · exact hule

end Engine

namespace Engine

theorem getTileSpeedFactor_nonneg (t : TileTypeId) : 0 ≤ getTileSpeedFactor t := by
  cases t <;> norm_num [getTileSpeedFactor, getTileType, TILE_TYPES]

theorem getSpeedFactor_nonneg (m : TileMap) (x y : ℝ) : 0 ≤ getSpeedFactor m x y := by
  rw [getSpeedFactor]
  split
  · norm_num
  · exact getTileSpeedFactor_nonneg _

theorem effSpeedFactor_nonneg (m? : Option TileMap) (x y : ℝ) :
    0 ≤ effSpeedFactor m? x y := by
  cases m? with
  | none => norm_num [effSpeedFactor]
  | some m =>
    simp only [effSpeedFactor]
    split
    · norm_num
    · exact getSpeedFactor_nonneg m x y

theorem c4_bound (s : EntityState) (δ : ℝ) (moveDir lookDir : Vec) (m? : Option TileMap)
    (coin : Bool) (hdir : vlen moveDir ≤ 1) (hms : 0 ≤ s.maxSpeed)
    (ha : 0 ≤ s.accel) (hd : 0 ≤ s.decel) (hδ : 0 ≤ δ) :
    vlen (update s δ moveDir lookDir m? coin).velocity ≤
      max (vlen s.velocity)
        (s.maxSpeed * effSpeedFactor m? (m?.elim s fun m => limitPosition m s).x
          (m?.elim s fun m => limitPosition m s).y) := by
  have htarget : ∀ (s0 : EntityState) (f : ℝ), 0 ≤ f → s0.maxSpeed = s.maxSpeed →
      vlen (vscale f (vscale s0.maxSpeed moveDir)) ≤ s.maxSpeed * f := by
    intro s0 f hf hms0
    rw [vlen_vscale, vlen_vscale, hms0, abs_of_nonneg hf, abs_of_nonneg hms]
    calc f * (s.maxSpeed * vlen moveDir) ≤ f * (s.maxSpeed * 1) := by
          refine mul_le_mul_of_nonneg_left ?_ hf
          exact mul_le_mul_of_nonneg_left hdir hms
      _ = s.maxSpeed * f := by ring
  cases m? with
  | none =>
    simp only [update]
    set V := updateVelocityNonlinear s
      (vscale (effSpeedFactor none s.x s.y) (vscale s.maxSpeed moveDir)) moveDir δ with hV
    set s1 : EntityState := { s with velocity := V } with hs1
    have e1 := updatePosition_velocity_le (updateRotation s1 δ (some lookDir) coin) δ none
    have e2 : (updateRotation s1 δ (some lookDir) coin).velocity = V :=
      (updateRotation_proj s1 δ (some lookDir) coin).1
    refine le_trans e1 ?_
    rw [e2, hV]
    refine le_trans (updateVelocityNonlinear_le s _ _ δ ha hd hδ) ?_
    exact max_le_max (le_refl _) (htarget s _ (effSpeedFactor_nonneg none s.x s.y) rfl)
  | some m =>
    simp only [update]
    set s0 : EntityState := limitPosition m s with hs0
    set V := updateVelocityNonlinear s0
      (vscale (effSpeedFactor (some m) s0.x s0.y) (vscale s0.maxSpeed moveDir)) moveDir δ with hV
    set s1 : EntityState := { s0 with velocity := V } with hs1
    have e1 := updatePosition_velocity_le (updateRotation s1 δ (some lookDir) coin) δ (some m)
    have e2 : (updateRotation s1 δ (some lookDir) coin).velocity = V :=
      (updateRotation_proj s1 δ (some lookDir) coin).1
    refine le_trans e1 ?_
    rw [e2, hV]
    have e3 := updateVelocityNonlinear_le s0
      (vscale (effSpeedFactor (some m) s0.x s0.y) (vscale s0.maxSpeed moveDir)) moveDir δ
      ha hd hδ
    refine le_trans e3 ?_
    have hsv : s0.velocity = s.velocity := rfl
    rw [hsv]
    exact max_le_max (le_refl _)
      (htarget s0 _ (effSpeedFactor_nonneg (some m) s0.x s0.y) rfl)

end Engine

namespace Engine

theorem vlen_eq_zero_iff (v : Vec) : vlen v = 0 ↔ v = ((0 : ℝ), (0 : ℝ)) := by
  constructor
  · intro h
    have hx : v.1 * v.1 + v.2 * v.2 ≤ 0 := Real.sqrt_eq_zero'.mp h
    have h1 : v.1 = 0 := by nlinarith
    have h2 : v.2 = 0 := by nlinarith
    exact Prod.ext h1 h2
  · rintro rfl
    exact vlen_zero

theorem vsub_vec_zero (T : Vec) : vsub T (0, 0) = T := by
  simp only [vsub]
  exact Prod.ext (by ring) (by ring)

theorem vsub_vadd_vscale (T v : Vec) (c : ℝ) :
    vsub T (vadd v (vscale c (vsub T v))) = vscale (1 - c) (vsub T v) := by
  simp only [vsub, vadd, vscale]
  exact Prod.ext (by ring) (by ring)

theorem vlen_add_le (a b : Vec) : vlen (vadd a b) ≤ vlen a + vlen b := by
  rw [vlen_eq_abs, vlen_eq_abs, vlen_eq_abs, toC_vadd]
  exact Complex.abs.add_le _ _

theorem vadd_vsub_cancel (T v1 : Vec) : vadd (vsub T v1) v1 = T := by
  simp only [vadd, vsub]
  exact Prod.ext (by ring) (by ring)

theorem vscale_one (v : Vec) : vscale 1 v = v := by
  simp only [vscale]
  exact Prod.ext (one_mul _) (one_mul _)

theorem updatePosition_none_velocity (S : EntityState) (δ : ℝ) :
    (updatePosition S δ none).velocity = S.velocity := rfl

theorem update_none_velocity (st : EntityState) (δ : ℝ) (mv lk : Vec) (coin : Bool) :
    (update st δ mv lk none coin).velocity =
      updateVelocityNonlinear st
        (vscale (effSpeedFactor none st.x st.y) (vscale st.maxSpeed mv)) mv δ := by
  simp only [update]
  rw [updatePosition_none_velocity]
  exact (updateRotation_proj _ _ _ _).1

end Engine

namespace Engine

theorem conv_step (st : EntityState) (δ : ℝ) (mv lk : Vec) (coin : Bool)
    (hdir : vlen mv = 1) (hM : 1 ≤ st.maxSpeed)
    (hstep : 2 ≤ st.accel * δ * Real.sqrt st.nonlinearFactor) :
    (update st δ mv lk none coin).velocity = vscale st.maxSpeed mv ∨
    vlen (vsub (vscale st.maxSpeed mv) (update st δ mv lk none coin).velocity) ≤
      vlen (vsub (vscale st.maxSpeed mv) st.velocity) - 1 := by
  have hTlen : vlen (vscale st.maxSpeed mv) = st.maxSpeed := by
    rw [vlen_vscale, hdir, mul_one, abs_of_nonneg (by linarith)]
  have hupd : (update st δ mv lk none coin).velocity =
      updateVelocityNonlinear st (vscale st.maxSpeed mv) mv δ := by
    rw [update_none_velocity]
    rw [show effSpeedFactor none st.x st.y = 1 from rfl, vscale_one]
  rw [hupd]
  simp only [updateVelocityNonlinear]
  by_cases hL0 : vlen (vsub (vscale st.maxSpeed mv) st.velocity) > 0
  swap
  · rw [if_neg hL0]
    have hLz : vlen (vsub (vscale st.maxSpeed mv) st.velocity) = 0 :=
      le_antisymm (not_lt.mp hL0) (vlen_nonneg _)
    have hz := (vlen_eq_zero_iff _).mp hLz
    have hvT : st.velocity = vscale st.maxSpeed mv := by
      have h1 : (vsub (vscale st.maxSpeed mv) st.velocity).1 = 0 := by rw [hz]
      have h2 : (vsub (vscale st.maxSpeed mv) st.velocity).2 = 0 := by rw [hz]
      simp only [vsub] at h1 h2
      refine Prod.ext ?_ ?_ <;> [linarith; linarith]
    rw [hvT, if_neg (by rw [hTlen]; exact not_lt.mpr (by linarith))]
    exact Or.inl rfl
  · rw [if_pos hL0]
    have hdirpos : vlen mv > 0 := by rw [hdir]; norm_num
    rw [if_pos hdirpos, if_pos hdirpos]
    have hTpos : vlen (vscale st.maxSpeed mv) > 0 := by rw [hTlen]; linarith
    rw [if_pos hTpos]
    have hsf0 : 0 ≤ vlen st.velocity / vlen (vscale st.maxSpeed mv) :=
      div_nonneg (vlen_nonneg _) (le_of_lt hTpos)
    set sf := vlen st.velocity / vlen (vscale st.maxSpeed mv) with hsf
    set D := st.accel * δ * Real.sqrt (sf + st.nonlinearFactor) with hD
    set L := vlen (vsub (vscale st.maxSpeed mv) st.velocity) with hL
    have hD2 : 2 ≤ D := by
      have hsq : Real.sqrt st.nonlinearFactor ≤ Real.sqrt (sf + st.nonlinearFactor) :=
        Real.sqrt_le_sqrt (by linarith)
      have haccδ : 0 ≤ st.accel * δ := by
        by_contra hneg
        push_neg at hneg
        nlinarith [Real.sqrt_nonneg st.nonlinearFactor]
      nlinarith [Real.sqrt_nonneg st.nonlinearFactor]
    by_cases hclamp : L > D
    · rw [if_pos hclamp]
      have hdist1 : vlen (vsub (vscale st.maxSpeed mv)
          (vadd st.velocity (vscale (D / L) (vsub (vscale st.maxSpeed mv) st.velocity)))) =
          L - D := by
        rw [vsub_vadd_vscale, vlen_vscale, ← hL]
        rw [abs_of_nonneg (by
          have : D / L ≤ 1 := by
            rw [div_le_one hL0]
            exact le_of_lt hclamp
          linarith)]
        field_simp
      by_cases hsnap : vlen (vadd st.velocity
          (vscale (D / L) (vsub (vscale st.maxSpeed mv) st.velocity))) < 1
      · rw [if_pos hsnap]
        right
        rw [vsub_vec_zero, hTlen]
        have htri : vlen (vscale st.maxSpeed mv) ≤
            vlen (vsub (vscale st.maxSpeed mv)
              (vadd st.velocity (vscale (D / L) (vsub (vscale st.maxSpeed mv) st.velocity)))) +
            vlen (vadd st.velocity (vscale (D / L) (vsub (vscale st.maxSpeed mv) st.velocity))) := by
          calc vlen (vscale st.maxSpeed mv) =
              vlen (vadd (vsub (vscale st.maxSpeed mv)
                (vadd st.velocity (vscale (D / L) (vsub (vscale st.maxSpeed mv) st.velocity))))
                (vadd st.velocity (vscale (D / L) (vsub (vscale st.maxSpeed mv) st.velocity)))) := by
                rw [vadd_vsub_cancel]
            _ ≤ _ := vlen_add_le _ _
        rw [hdist1, hTlen] at htri
        linarith
      · rw [if_neg hsnap]
        right
        rw [hdist1]
        linarith
    · rw [if_neg hclamp]
      rw [vadd_vsub]
      rw [if_neg (by rw [hTlen]; exact not_lt.mpr (by linarith))]
      exact Or.inl rfl

end Engine

namespace Engine

theorem vsub_self_vec (T : Vec) : vsub T T = ((0 : ℝ), (0 : ℝ)) := by
  simp only [vsub]
  exact Prod.ext (by ring) (by ring)

theorem update_none_constants (st : EntityState) (δ : ℝ) (mv lk : Vec) (coin : Bool) :
    (update st δ mv lk none coin).maxSpeed = st.maxSpeed ∧
    (update st δ mv lk none coin).accel = st.accel ∧
    (update st δ mv lk none coin).nonlinearFactor = st.nonlinearFactor := by
  simp only [update]
  exact ⟨(updateRotation_proj _ _ _ _).2.2.2.2.1,
    (updateRotation_proj _ _ _ _).2.2.2.2.2.1,
    (updateRotation_proj _ _ _ _).2.2.2.2.2.2.2.1⟩

theorem iterate_none_constants (s : EntityState) (δ : ℝ) (mv lk : Vec) (coin : Bool) (n : ℕ) :
    ((fun st => update st δ mv lk none coin)^[n] s).maxSpeed = s.maxSpeed ∧
    ((fun st => update st δ mv lk none coin)^[n] s).accel = s.accel ∧
    ((fun st => update st δ mv lk none coin)^[n] s).nonlinearFactor = s.nonlinearFactor := by
  induction n with
  | zero => exact ⟨rfl, rfl, rfl⟩
  | succ k ih =>
    rw [Function.iterate_succ_apply']
    obtain ⟨h1, h2, h3⟩ :=
      update_none_constants ((fun st => update st δ mv lk none coin)^[k] s) δ mv lk coin
    exact ⟨h1.trans ih.1, h2.trans ih.2.1, h3.trans ih.2.2⟩

theorem conv_iterate (s : EntityState) (δ : ℝ) (mv lk : Vec) (coin : Bool)
    (hdir : vlen mv = 1) (hM : 1 ≤ s.maxSpeed)
    (hstep : 2 ≤ s.accel * δ * Real.sqrt s.nonlinearFactor) (n : ℕ) :
    ((fun st => update st δ mv lk none coin)^[n] s).velocity = vscale s.maxSpeed mv ∨
    vlen (vsub (vscale s.maxSpeed mv)
      ((fun st => update st δ mv lk none coin)^[n] s).velocity) ≤
      vlen (vsub (vscale s.maxSpeed mv) s.velocity) - n := by
  induction n with
  | zero =>
    right
    rw [Function.iterate_zero_apply]
    push_cast
    linarith
  | succ k ih =>
    obtain ⟨hc1, hc2, hc3⟩ := iterate_none_constants s δ mv lk coin k
    have hstepk := conv_step ((fun st => update st δ mv lk none coin)^[k] s) δ mv lk coin hdir
      (by rw [hc1]; exact hM) (by rw [hc2, hc3]; exact hstep)
    rw [hc1] at hstepk
    rw [Function.iterate_succ_apply']
    rcases ih with hik | hik
    · rcases hstepk with hs | hs
      · left
        exact hs
      · exfalso
        rw [hik, vsub_self_vec, vlen_zero] at hs
        have h0 := vlen_nonneg (vsub (vscale s.maxSpeed mv)
          (update ((fun st => update st δ mv lk none coin)^[k] s) δ mv lk none coin).velocity)
        linarith
    · rcases hstepk with hs | hs
      · left
        exact hs
      · right
        push_cast at hik ⊢
        linarith

end Engine

namespace Engine

theorem updatePosition_block_y (u : EntityState) (δ : ℝ) (m : TileMap)
    (hx : ¬(|u.velocity.1| > 0.1)) (hy : |u.velocity.2| > 0.1)
    (hcoll : isCollidingRect m u.x (u.y + u.velocity.2 * δ) u.size u.size = true) :
    updatePosition u δ (some m) = { u with velocity := (u.velocity.1, 0) } := by
  rw [updatePosition]
  rw [if_neg hx, if_pos hy, if_neg (by rw [hcoll]; intro hcon; cases hcon)]

set_option maxHeartbeats 1600000 in
/-- C4 (counterexample): the claimed bound fails on a zero-speed-factor tile. The actor
sits at (99, 60) on the 60x10 map whose tile (1,1) is mineral (speed factor 0), with
velocity (0.09, 400). `getSpeedFactor` there is 0, yet after one full `update` with input
(0, 1) the position is unchanged (still on the factor-0 tile) and the speed exceeds
maxSpeed * speedFactor + accel * dt * 2 = 0.008: the `|| 1` coercion turns factor 0 into
target speed 400, the y-velocity is zeroed by tile collision, but the sub-threshold
x-velocity 0.09 - D (where D < 0.0052 is the one frame's step) survives untouched. -/
theorem c4_speed_counterexample :
    getSpeedFactor mapMineral11 99 60 = 0 ∧
    vlen ((update { baseEntity with x := 99, y := 60, velocity := (0.09, 400) } 0.000001
      (0, 1) (0, 0) (some mapMineral11) false).velocity) >
      400 * getSpeedFactor mapMineral11 99 60 + 4000 * 0.000001 * 2 ∧
    (update { baseEntity with x := 99, y := 60, velocity := (0.09, 400) } 0.000001
      (0, 1) (0, 0) (some mapMineral11) false).x = 99 ∧
    (update { baseEntity with x := 99, y := 60, velocity := (0.09, 400) } 0.000001
      (0, 1) (0, 0) (some mapMineral11) false).y = 60 := by
  have htiles : mapMineral11.tiles 1 1 = .mineral := by simp [mapMineral11, mkMap]
  have hgsf : getSpeedFactor mapMineral11 99 60 = 0 := by
    rw [getSpeedFactor]
    have h1 : ⌊(99 : ℝ) / mapMineral11.tileSize⌋ = 1 := by
      show ⌊(99 : ℝ) / 50⌋ = 1
      norm_num
    have h2 : ⌊(60 : ℝ) / mapMineral11.tileSize⌋ = 1 := by
      show ⌊(60 : ℝ) / 50⌋ = 1
      norm_num
    rw [h1, h2, if_neg (by simp [mapMineral11, mkMap]), htiles]
    norm_num [getTileSpeedFactor, getTileType, TILE_TYPES]
  -- the evaluated velocity-step magnitude
  set A := vlen ((0.09 : ℝ), (400 : ℝ)) with hA
  have hA_lb : 400 ≤ A := by
    rw [hA, vlen, show ((0.09 : ℝ) * 0.09 + 400 * 400) = 160000.0081 by norm_num,
      Real.le_sqrt' (by norm_num)]
    norm_num
  have hA_ub : A < 400.001 := by
    rw [hA, vlen, show ((0.09 : ℝ) * 0.09 + 400 * 400) = 160000.0081 by norm_num,
      Real.sqrt_lt' (by norm_num)]
    norm_num
  set D := (4000 : ℝ) * 0.000001 * Real.sqrt (A / 400 + 0.5) with hD
  have hsq_lb : (1 : ℝ) ≤ Real.sqrt (A / 400 + 0.5) := by
    rw [Real.le_sqrt' (by norm_num)]
    nlinarith
  have hsq_ub : Real.sqrt (A / 400 + 0.5) < 1.3 := by
    rw [Real.sqrt_lt' (by norm_num)]
    nlinarith
  have hD_pos : 0 < D := by
    rw [hD]
    nlinarith
  have hD_ub : D < 0.0052 := by
    rw [hD]
    nlinarith
  have hlim : limitPosition mapMineral11 { baseEntity with x := 99, y := 60, velocity := (0.09, 400) } =
      { baseEntity with x := 99, y := 60, velocity := (0.09, 400) } := by
    rw [limitPosition]
    have hw : (mapMineral11.width : ℝ) = 60 := by norm_num [mapMineral11, mkMap]
    have hh : (mapMineral11.height : ℝ) = 10 := by norm_num [mapMineral11, mkMap]
    have hts : mapMineral11.tileSize = 50 := rfl
    rw [hw, hh, hts]
    show ({ baseEntity with
      x := max 0 (min (60 * 60 - 49) 99), y := max 0 (min (10 * 50 - 49) 60),
      velocity := (0.09, 400) } : EntityState) = _
    norm_num
  have htv : vscale (effSpeedFactor (some mapMineral11) 99 60)
      (vscale baseEntity.maxSpeed ((0 : ℝ), (1 : ℝ))) = ((0 : ℝ), (400 : ℝ)) := by
    have heff : effSpeedFactor (some mapMineral11) 99 60 = 1 := by
      simp only [effSpeedFactor]
      rw [hgsf]
      norm_num
    rw [heff, show baseEntity.maxSpeed = 400 from rfl]
    simp [vscale]
  have hvel : updateVelocityNonlinear { baseEntity with x := 99, y := 60, velocity := (0.09, 400) }
      ((0 : ℝ), (400 : ℝ)) ((0 : ℝ), (1 : ℝ)) 0.000001 = (0.09 - D, 400) := by
    simp only [updateVelocityNonlinear]
    have hdl : vlen (vsub ((0 : ℝ), (400 : ℝ)) ((0.09 : ℝ), (400 : ℝ))) = 0.09 := by
      simp only [vsub, vlen]
      rw [show ((0 : ℝ) - 0.09) * ((0 : ℝ) - 0.09) + ((400 : ℝ) - 400) * ((400 : ℝ) - 400) =
        0.09 ^ 2 by norm_num, Real.sqrt_sq (by norm_num)]
    have hdirlen : vlen ((0 : ℝ), (1 : ℝ)) = 1 := by
      rw [vlen, show ((0 : ℝ) * 0 + 1 * 1) = 1 ^ 2 by norm_num, Real.sqrt_sq (by norm_num)]
    have htlen : vlen ((0 : ℝ), (400 : ℝ)) = 400 := by
      rw [vlen, show ((0 : ℝ) * 0 + 400 * 400) = 400 ^ 2 by norm_num, Real.sqrt_sq (by norm_num)]
    rw [hdl, hdirlen, htlen]
    rw [if_pos (by norm_num : (0.09 : ℝ) > 0), if_pos (by norm_num : (1 : ℝ) > 0),
      if_pos (by norm_num : (1 : ℝ) > 0), if_pos (by norm_num : (400 : ℝ) > 0)]
    rw [show baseEntity.accel = 4000 from rfl]
    rw [show baseEntity.nonlinearFactor = 0.5 from rfl]
    rw [← hA, ← hD]
    rw [if_pos (by nlinarith : (0.09 : ℝ) > D)]
    have hval : vadd ((0.09 : ℝ), (400 : ℝ))
        (vscale (D / 0.09) (vsub ((0 : ℝ), (400 : ℝ)) ((0.09 : ℝ), (400 : ℝ)))) =
        (0.09 - D, 400) := by
      simp only [vadd, vscale, vsub]
      refine Prod.ext ?_ ?_
      · show (0.09 : ℝ) + D / 0.09 * (0 - 0.09) = 0.09 - D
        field_simp
        ring
      · show (400 : ℝ) + D / 0.09 * (400 - 400) = 400
        ring
    rw [hval]
    rw [if_neg]
    rw [vlen]
    rw [show ((0.09 : ℝ) - D) * (0.09 - D) + 400 * 400 =
      (0.09 - D) ^ 2 + 160000 by ring]
    intro hcon
    have h400 : (400 : ℝ) ≤ Real.sqrt ((0.09 - D) ^ 2 + 160000) := by
      rw [Real.le_sqrt' (by norm_num)]
      nlinarith [sq_nonneg ((0.09 : ℝ) - D)]
    linarith
  have hcollconc : isCollidingRect mapMineral11 99 (60 + 400 * 0.000001) 49 49 = true := by
    have hcells : overlappedCells mapMineral11 99 (60 + 400 * 0.000001) 49 49 =
        [(1, 1), (1, 2), (2, 1), (2, 2)] := by
      rw [overlappedCells]
      have h1 : ⌊(99 : ℝ) / mapMineral11.tileSize⌋ = 1 := by
        show ⌊(99 : ℝ) / 50⌋ = 1
        norm_num
      have h2 : ⌊((99 : ℝ) + 49 - 1) / mapMineral11.tileSize⌋ = 2 := by
        show ⌊((99 : ℝ) + 49 - 1) / 50⌋ = 2
        norm_num
      have h3 : ⌊((60 : ℝ) + 400 * 0.000001) / mapMineral11.tileSize⌋ = 1 := by
        show ⌊((60 : ℝ) + 400 * 0.000001) / 50⌋ = 1
        norm_num
      have h4 : ⌊(((60 : ℝ) + 400 * 0.000001) + 49 - 1) / mapMineral11.tileSize⌋ = 2 := by
        show ⌊(((60 : ℝ) + 400 * 0.000001) + 49 - 1) / 50⌋ = 2
        norm_num
      rw [h1, h2, h3, h4]
      rfl
    rw [isCollidingRect, if_neg]
    · rw [hcells]
      have hw : (List.any [((1 : ℤ), (1 : ℤ)), (1, 2), (2, 1), (2, 2)]
          fun rc => !terrainWalkable (mapMineral11.tiles rc.1 rc.2)) = true := by
        have : terrainWalkable (mapMineral11.tiles 1 1) = false := by
          rw [htiles, terrainWalkable, terrainMap_mineral]
        simp [this]
      exact hw
    · have hw : (mapMineral11.width : ℝ) = 60 := by norm_num [mapMineral11, mkMap]
      have hh : (mapMineral11.height : ℝ) = 10 := by norm_num [mapMineral11, mkMap]
      have hts : mapMineral11.tileSize = 50 := rfl
      rw [hw, hh, hts]
      push_neg
      norm_num
  have hstep1 : update { baseEntity with x := 99, y := 60, velocity := (0.09, 400) } 0.000001
      (0, 1) (0, 0) (some mapMineral11) false =
      updatePosition (updateRotation { baseEntity with x := 99, y := 60, velocity := ((0.09 - D, 400) : Vec) } 0.000001 (some (0, 0)) false) 0.000001
        (some mapMineral11) := by
    rw [update]
    simp only [hlim]
    rw [htv, hvel]
  have proj := updateRotation_proj { baseEntity with x := 99, y := 60, velocity := ((0.09 - D, 400) : Vec) } 0.000001 (some (0, 0)) false
  have huv : (updateRotation { baseEntity with x := 99, y := 60, velocity := ((0.09 - D, 400) : Vec) } 0.000001 (some (0, 0)) false).velocity =
      ((0.09 - D, 400) : Vec) := proj.1
  have hux : (updateRotation { baseEntity with x := 99, y := 60, velocity := ((0.09 - D, 400) : Vec) } 0.000001 (some (0, 0)) false).x = 99 := proj.2.1
  have huy : (updateRotation { baseEntity with x := 99, y := 60, velocity := ((0.09 - D, 400) : Vec) } 0.000001 (some (0, 0)) false).y = 60 := proj.2.2.1
  have husz : (updateRotation { baseEntity with x := 99, y := 60, velocity := ((0.09 - D, 400) : Vec) } 0.000001 (some (0, 0)) false).size = 49 :=
    proj.2.2.2.1
  have hxcond : ¬(|(updateRotation { baseEntity with x := 99, y := 60, velocity := ((0.09 - D, 400) : Vec) } 0.000001 (some (0, 0)) false).velocity.1| > 0.1) := by
    rw [huv]
    show ¬(|(0.09 : ℝ) - D| > 0.1)
    rw [not_lt]
    rw [abs_of_nonneg (by nlinarith)]
    nlinarith
  have hycond : |(updateRotation { baseEntity with x := 99, y := 60, velocity := ((0.09 - D, 400) : Vec) } 0.000001 (some (0, 0)) false).velocity.2| > 0.1 := by
    rw [huv]
    show |(400 : ℝ)| > 0.1
    rw [abs_of_nonneg (by norm_num)]
    norm_num
  have hcoll : isCollidingRect mapMineral11
      (updateRotation { baseEntity with x := 99, y := 60, velocity := ((0.09 - D, 400) : Vec) } 0.000001 (some (0, 0)) false).x
      ((updateRotation { baseEntity with x := 99, y := 60, velocity := ((0.09 - D, 400) : Vec) } 0.000001 (some (0, 0)) false).y +
        (updateRotation { baseEntity with x := 99, y := 60, velocity := ((0.09 - D, 400) : Vec) } 0.000001 (some (0, 0)) false).velocity.2 *
          0.000001)
      (updateRotation { baseEntity with x := 99, y := 60, velocity := ((0.09 - D, 400) : Vec) } 0.000001 (some (0, 0)) false).size
      (updateRotation { baseEntity with x := 99, y := 60, velocity := ((0.09 - D, 400) : Vec) } 0.000001 (some (0, 0)) false).size = true := by
    rw [huv, hux, huy, husz]
    exact hcollconc
  have hblock := updatePosition_block_y _ 0.000001 mapMineral11 hxcond hycond hcoll
  rw [hstep1, hblock]
  refine ⟨hgsf, ?_, ?_, ?_⟩
  · show vlen ((updateRotation { baseEntity with x := 99, y := 60, velocity := ((0.09 - D, 400) : Vec) } 0.000001 (some (0, 0)) false).velocity.1, 0) >
      400 * getSpeedFactor mapMineral11 99 60 + 4000 * 0.000001 * 2
    rw [huv, hgsf]
    show vlen ((0.09 - D : ℝ), (0 : ℝ)) > 400 * 0 + 4000 * 0.000001 * 2
    rw [vlen, show ((0.09 : ℝ) - D) * (0.09 - D) + 0 * 0 = (0.09 - D) ^ 2 by ring,
      Real.sqrt_sq (by nlinarith)]
    nlinarith
  · show (updateRotation { baseEntity with x := 99, y := 60, velocity := ((0.09 - D, 400) : Vec) } 0.000001 (some (0, 0)) false).x = 99
    exact hux
  · show (updateRotation { baseEntity with x := 99, y := 60, velocity := ((0.09 - D, 400) : Vec) } 0.000001 (some (0, 0)) false).y = 60
    exact huy

end Engine

namespace Engine

/-- C4 (amended): after one `update` the speed never exceeds the larger of the previous
speed and maxSpeed * effSpeedFactor at the clamped position, where effSpeedFactor is the
tile speed factor with 0 coerced to 1 (the code's `|| 1`); and under constant unit input
with no map, iterated updates converge to the exact target velocity maxSpeed * moveDir:
at every step the distance to the target either reaches 0 or drops by at least 1,
provided one frame's acceleration step is at least 2. -/
theorem c4_speed_amended (s : EntityState) (δ : ℝ) (moveDir lookDir : Vec)
    (m? : Option TileMap) (coin : Bool) (hdir : vlen moveDir ≤ 1) (hms : 0 ≤ s.maxSpeed)
    (ha : 0 ≤ s.accel) (hd : 0 ≤ s.decel) (hδ : 0 ≤ δ) :
    vlen (update s δ moveDir lookDir m? coin).velocity ≤
      max (vlen s.velocity)
        (s.maxSpeed * effSpeedFactor m? (m?.elim s fun m => limitPosition m s).x
          (m?.elim s fun m => limitPosition m s).y) ∧
    (vlen moveDir = 1 → 1 ≤ s.maxSpeed → 2 ≤ s.accel * δ * Real.sqrt s.nonlinearFactor →
      ∀ n : ℕ, ((fun st => update st δ moveDir lookDir none coin)^[n] s).velocity =
          vscale s.maxSpeed moveDir ∨
        vlen (vsub (vscale s.maxSpeed moveDir)
          ((fun st => update st δ moveDir lookDir none coin)^[n] s).velocity) ≤
          vlen (vsub (vscale s.maxSpeed moveDir) s.velocity) - n) :=
  ⟨c4_bound s δ moveDir lookDir m? coin hdir hms ha hd hδ,
   fun h1 h2 h3 n => conv_iterate s δ moveDir lookDir coin h1 h2 h3 n⟩

theorem c4_speed_amended_witness :
    vlen ((1 : ℝ), (0 : ℝ)) ≤ 1 ∧
    (vlen (update baseEntity (1 / 60) (1, 0) (1, 0) none false).velocity ≤
      max (vlen baseEntity.velocity)
        (baseEntity.maxSpeed * effSpeedFactor none baseEntity.x baseEntity.y) ∧
    (vlen ((1 : ℝ), (0 : ℝ)) = 1 → 1 ≤ baseEntity.maxSpeed →
      2 ≤ baseEntity.accel * (1 / 60) * Real.sqrt baseEntity.nonlinearFactor →
      ∀ n : ℕ, ((fun st => update st (1 / 60) (1, 0) (1, 0) none false)^[n]
          baseEntity).velocity = vscale baseEntity.maxSpeed (1, 0) ∨
        vlen (vsub (vscale baseEntity.maxSpeed (1, 0))
          ((fun st => update st (1 / 60) (1, 0) (1, 0) none false)^[n]
            baseEntity).velocity) ≤
          vlen (vsub (vscale baseEntity.maxSpeed (1, 0)) baseEntity.velocity) - n)) :=
  ⟨le_of_eq vlen_one_zero,
   c4_speed_amended baseEntity (1 / 60) (1, 0) (1, 0) none false
     (le_of_eq vlen_one_zero) ((by norm_num : (0 : ℝ) ≤ 400))
     ((by norm_num : (0 : ℝ) ≤ 4000)) ((by norm_num : (0 : ℝ) ≤ 1200))
     (by norm_num)⟩

end Engine
